import Mathlib

/-!
# Verification development for `simulate.cpp` (verilog-raycaster)

`simulate.cpp` is a Verilator/SDL co-simulation driver: it resets a clocked
hardware model, then runs one loop that toggles the clock, stores one pixel per
cycle while data-enable is high, and at the frame boundary polls input,
presents the frame and counts it.

The embedding below follows `main` statement by statement.  The Verilated
model and SDL are external; they are represented by a `Hardware` record and an
`Env` record of the values the library calls return.  Every call that `main`
makes on the model or on SDL is appended to a chronological `trace`.

The raster size is a parameter `hres vres` of the loop functions, so that
small rasters can be run as well; `main` instantiates it with the constants
`H_RES = 640` and `V_RES = 480` of the source.  Machine integers are natural
numbers with the wrap-around written out where a store or an operation can
wrap (`uint8_t` channel stores, `uint64_t` counter and tick arithmetic).  The
`double` arithmetic of the frame-rate report is IEEE 754 binary64 with
rounding to nearest, ties to even, on exact rational values.  A
store outside `screenbuffer` has no defined result and ends the model's run
in `undef`.  The loop is unrolled by a fuel argument; results about
termination state how much fuel suffices.
-/

namespace Simulate

/-! ## Data model -/

/-- Horizontal resolution, `const int H_RES = 640;`. -/
def H_RES : Nat := 640

/-- Vertical resolution, `const int V_RES = 480;`. -/
def V_RES : Nat := 480

/-- The `Pixel` struct: four `uint8_t` channels in declaration order a, b, g, r. -/
structure Pixel where
  a : Nat
  b : Nat
  g : Nat
  r : Nat
deriving DecidableEq, Repr

/-- Modelled from the spec: the generated header `Vraytracer.h` is not among
the sources. These are the input ports of the Verilated model that `main`
writes (reset, clock, 4-bit movement command). -/
structure Inputs where
  rst_in : Nat
  clk_in : Nat
  mvmt_in : Nat
deriving DecidableEq, Repr

/-- Modelled from the spec: the generated header `Vraytracer.h` is not among
the sources. These are the output ports of the Verilated model that `main`
reads (raster coordinate, data-enable, colour channels), as unsigned values;
the coordinate ports are taken to be narrow enough (16 bits or fewer) for the
`int` arithmetic of the index `sy_out * H_RES + sx_out` to be exact. -/
structure Outputs where
  sx_out : Nat
  sy_out : Nat
  de_out : Nat
  r_out : Nat
  g_out : Nat
  b_out : Nat
deriving DecidableEq, Repr

/-- Modelled from the spec: the class `Vraytracer` is generated from the
hardware design and is not among the sources. A hardware model is given by
its internal state after construction, the value its `mvmt_in` port holds
after construction, what `eval()` does to the internal state given the input
ports, and the output ports as a function of the internal state. `eval`
cannot modify input ports. -/
structure Hardware (σ : Type) where
  init : σ
  mvmt0 : Nat
  eval : Inputs → σ → σ
  out : σ → Outputs

/-- The `type` field of an `SDL_Event`, as far as `main` distinguishes it. -/
inductive EventType where
  | SDL_QUIT
  | other
deriving DecidableEq, Repr

/-- The entries of the `keyb_state` array (`Uint8` each) that `main` reads. -/
structure Keyboard where
  UP : Nat
  W : Nat
  DOWN : Nat
  S : Nat
  LEFT : Nat
  A : Nat
  RIGHT : Nat
  D : Nat
  Q : Nat
deriving DecidableEq, Repr

/-- A `double` as lines 121-123 can produce one. Every operand there comes
from an unsigned integer, so no negative value arises: a value is a finite
non-negative binary64 number, given by its exact rational value, or `+inf`, or
a NaN. -/
inductive F64 where
  | fin (q : ℚ)
  | inf
  | nan
deriving DecidableEq

/-- Nearest integer to a non-negative rational, a tie going to the even
neighbour. -/
def roundEven (x : ℚ) : Int :=
  if x - ⌊x⌋ < 1 / 2 then ⌊x⌋
  else if 1 / 2 < x - ⌊x⌋ then ⌊x⌋ + 1
  else if ⌊x⌋ % 2 = 0 then ⌊x⌋ else ⌊x⌋ + 1

/-- Binary exponent of the unit in the last place of the binary64 numbers
around `q > 0`: 53 significant bits in the binade of `q`, and never below the
subnormal spacing `2 ^ (-1074)`. -/
def ulpExp (q : ℚ) : Int := max (Int.log 2 q - 52) (-1074)

/-- Rounding of a non-negative rational to binary64 in the default mode
(to nearest, ties to even); a result of `2 ^ 1024` or more overflows to
`+inf`. -/
def F64.round (q : ℚ) : F64 :=
  if q = 0 then F64.fin 0
  else if (2 : ℚ) ^ (1024 : Nat) ≤ (roundEven (q / 2 ^ ulpExp q) : ℚ) * 2 ^ ulpExp q then F64.inf
  else F64.fin ((roundEven (q / 2 ^ ulpExp q) : ℚ) * 2 ^ ulpExp q)

/-- The conversion `(double)n` of an unsigned integer. -/
def F64.ofNat (n : Nat) : F64 := F64.round (n : ℚ)

/-- The division `x / y` of two non-negative `double`s. -/
def F64.div : F64 → F64 → F64
  | F64.nan, _ => F64.nan
  | _, F64.nan => F64.nan
  | F64.inf, F64.inf => F64.nan
  | F64.inf, F64.fin _ => F64.inf
  | F64.fin _, F64.inf => F64.fin 0
  | F64.fin a, F64.fin b =>
    if b = 0 then (if a = 0 then F64.nan else F64.inf) else F64.round (a / b)

/-- Which of the four failure messages `printf` emits. -/
inductive Diag where
  | sdlInitFailed
  | windowCreationFailed
  | rendererCreationFailed
  | textureCreationFailed
deriving DecidableEq, Repr

/-- The calls `main` makes, in the order of the source text. -/
inductive Event where
  | commandArgs
  | SDL_Init
  | SDL_CreateWindow
  | SDL_CreateRenderer
  | SDL_CreateTexture
  | printf (d : Diag)
  | SDL_GetKeyboardState
  | new_vmodule
  | eval (i : Inputs)
  | SDL_GetPerformanceCounter
  | SDL_PollEvent
  | SDL_UpdateTexture
  | SDL_RenderClear
  | SDL_RenderCopy
  | SDL_RenderPresent
  | SDL_GetPerformanceFrequency
  | printf_fps (fps : F64)
  | final
  | SDL_DestroyTexture
  | SDL_DestroyRenderer
  | SDL_DestroyWindow
  | SDL_Quit
deriving DecidableEq

/-- What the SDL library hands back to `main`.
* `sdl_init` is the return value of `SDL_Init`;
* `window`, `renderer`, `texture` say whether the created pointer is non-null;
* `stack i` is the indeterminate initial content of `screenbuffer[i]`;
* `pump k` is what the event pump inside the `k`-th call of `SDL_PollEvent`
  delivers: the events it appends to the queue and the keyboard array after it;
* `counter k` is the value of the `k`-th call of `SDL_GetPerformanceCounter`,
  a `Uint64`;
* `frequency` is the value of `SDL_GetPerformanceFrequency`, a `Uint64`. -/
structure Env where
  sdl_init : Int
  window : Bool
  renderer : Bool
  texture : Bool
  stack : Nat → Pixel
  pump : Nat → List EventType × Keyboard
  counter : Nat → Nat
  frequency : Nat

/-- The program state while the model is alive: the model's input ports and
internal state, the frame buffer, the frame counter, the SDL event queue, the
keyboard array, the number of polls made so far, and the call trace. -/
structure Sim (σ : Type) where
  mod_in : Inputs
  core : σ
  screenbuffer : List Pixel
  frame_count : Nat
  queue : List EventType
  keyb_state : Keyboard
  polls : Nat
  trace : List Event

/-! ## Operations -/

/-- The call `mod->eval()`. -/
def evalMod {σ : Type} (hw : Hardware σ) (s : Sim σ) : Sim σ :=
  { s with core := hw.eval s.mod_in s.core, trace := s.trace ++ [Event.eval s.mod_in] }

/-- The assignment `mod->clk_in = v`. -/
def setClk {σ : Type} (v : Nat) (s : Sim σ) : Sim σ :=
  { s with mod_in := { s.mod_in with clk_in := v } }

/-- The assignment `mod->rst_in = v`. -/
def setRst {σ : Type} (v : Nat) (s : Sim σ) : Sim σ :=
  { s with mod_in := { s.mod_in with rst_in := v } }

/-- Lines 65-72: the reset sequence. -/
def reset {σ : Type} (hw : Hardware σ) (s : Sim σ) : Sim σ :=
  let s1 := evalMod hw (setClk 0 (setRst 1 s))
  let s2 := evalMod hw (setClk 1 s1)
  evalMod hw (setClk 0 (setRst 0 s2))

/-- Store through `&screenbuffer[i]`: defined only inside the array. -/
def writePixel (buf : List Pixel) (i : Nat) (p : Pixel) : Option (List Pixel) :=
  if i < buf.length then some (buf.set i p) else none

/-- Lines 84-91: when `de_out` is non-zero, all four channels of the slot at
`sy_out * H_RES + sx_out` are assigned (the channel stores are `uint8_t`
stores); there is no test on the coordinate. -/
def accumulate (hres : Nat) (buf : List Pixel) (o : Outputs) : Option (List Pixel) :=
  if o.de_out ≠ 0 then
    writePixel buf (o.sy_out * hres + o.sx_out)
      { a := 0xFF, b := o.b_out % 256, g := o.g_out % 256, r := o.r_out % 256 }
  else some buf

/-- The test of line 94, `mod->sy_out == V_RES && mod->sx_out == 0`. -/
def atBoundary (vres : Nat) (o : Outputs) : Bool :=
  o.sy_out == vres && o.sx_out == 0

/-- C truth value of `x || y` as an `int`. -/
def lor (x y : Nat) : Nat := if x ≠ 0 ∨ y ≠ 0 then 1 else 0

/-- Lines 101-108: the value assigned to `mod->mvmt_in`.  The value is below
16, so storing it in the port (at least 8 bits wide) does not truncate. -/
def mvmt (k : Keyboard) : Nat :=
  (lor k.UP k.W <<< 3) ||| (lor k.DOWN k.S <<< 2) ||| (lor k.LEFT k.A <<< 1) ||| lor k.RIGHT k.D

/-- The call `SDL_PollEvent(&e)`: the pump appends the newly arrived events to
the queue and refreshes the keyboard array, then the head of the queue, if
any, is removed and returned. -/
def pollEvent {σ : Type} (env : Env) (s : Sim σ) : Option EventType × Sim σ :=
  let s1 : Sim σ :=
    { s with keyb_state := (env.pump s.polls).2, polls := s.polls + 1,
             trace := s.trace ++ [Event.SDL_PollEvent] }
  match s.queue ++ (env.pump s.polls).1 with
  | [] => (none, { s1 with queue := [] })
  | e :: rest => (some e, { s1 with queue := rest })

/-- Lines 101-115: write the movement port, upload and present the frame,
`frame_count++` on a `uint64_t`. -/
def present {σ : Type} (s : Sim σ) : Sim σ :=
  { s with
    mod_in := { s.mod_in with mvmt_in := mvmt s.keyb_state },
    trace := s.trace ++ [Event.SDL_UpdateTexture, Event.SDL_RenderClear,
                         Event.SDL_RenderCopy, Event.SDL_RenderPresent],
    frame_count := (s.frame_count + 1) % 2 ^ 64 }

/-- Outcome of one pass through the body of `while (true)`. -/
inductive LoopResult (α : Type) where
  | next (s : α)
  | brk (s : α)
  | undef

/-- The state a loop iteration ends in, when it has one. -/
def LoopResult.state? {α : Type} : LoopResult α → Option α
  | LoopResult.next s => some s
  | LoopResult.brk s => some s
  | LoopResult.undef => none

/-- Whether the iteration left the loop through `break`. -/
def LoopResult.isBrk {α : Type} : LoopResult α → Bool
  | LoopResult.brk _ => true
  | _ => false

/-- Lines 79-82: `clk_in = 1; eval(); clk_in = 0; eval();`. -/
def clockCycle {σ : Type} (hw : Hardware σ) (s : Sim σ) : Sim σ :=
  evalMod hw (setClk 0 (evalMod hw (setClk 1 s)))

/-- Lines 78-116: one iteration of the main loop.  `undef` stands for a store
outside `screenbuffer`. -/
def cycle {σ : Type} (hres vres : Nat) (hw : Hardware σ) (env : Env) (s : Sim σ) :
    LoopResult (Sim σ) :=
  let s2 := clockCycle hw s
  let o := hw.out s2.core
  match accumulate hres s2.screenbuffer o with
  | none => LoopResult.undef
  | some buf =>
    let s3 : Sim σ := { s2 with screenbuffer := buf }
    if atBoundary vres o then
      let polled := pollEvent env s3
      if polled.1 = some EventType.SDL_QUIT then LoopResult.brk polled.2
      else if polled.2.keyb_state.Q ≠ 0 then LoopResult.brk polled.2
      else LoopResult.next (present polled.2)
    else LoopResult.next s3

/-- Where the program is after at most `fuel` iterations of the loop. -/
inductive Run (α : Type) where
  | running (s : α)
  | exited (s : α)
  | undef

/-- The loop `while (true) { ... }` unrolled `fuel` times. -/
def runLoop {σ : Type} (hres vres : Nat) (hw : Hardware σ) (env : Env) :
    Nat → Sim σ → Run (Sim σ)
  | 0, s => Run.running s
  | fuel + 1, s =>
    match cycle hres vres hw env s with
    | LoopResult.next s1 => runLoop hres vres hw env fuel s1
    | LoopResult.brk s1 => Run.exited s1
    | LoopResult.undef => Run.undef

/-- Lines 120-123: `end_ticks - start_ticks` is a `uint64_t` subtraction; the
difference, the frequency and the frame count are converted to `double` and
the two divisions are `double` divisions. The result is the argument of
`printf("fps: %.1f\n", fps)`. -/
def fps (start_ticks end_ticks frequency frame_count : Nat) : F64 :=
  let duration : F64 :=
    F64.div (F64.ofNat ((end_ticks + 2 ^ 64 - start_ticks) % 2 ^ 64)) (F64.ofNat frequency)
  F64.div (F64.ofNat frame_count) duration

/-- Lines 119-133: report the frame rate and tear down. -/
def teardown (env : Env) (frame_count : Nat) (trace : List Event) : List Event :=
  trace ++ [Event.SDL_GetPerformanceCounter, Event.SDL_GetPerformanceFrequency,
            Event.printf_fps (fps (env.counter 0) (env.counter 1) env.frequency frame_count),
            Event.final,
            Event.SDL_DestroyTexture, Event.SDL_DestroyRenderer, Event.SDL_DestroyWindow,
            Event.SDL_Quit]

/-- The state in which the main loop is entered: model constructed and reset,
`frame_count = 0`, `screenbuffer` holding whatever the stack held.  The
keyboard array is not read before the first poll refreshes it. -/
def start {σ : Type} (hres vres : Nat) (hw : Hardware σ) (env : Env) (trace : List Event) :
    Sim σ :=
  let s0 : Sim σ :=
    { mod_in := { rst_in := 0, clk_in := 0, mvmt_in := hw.mvmt0 },
      core := hw.init,
      screenbuffer := (List.range (hres * vres)).map env.stack,
      frame_count := 0,
      queue := [],
      keyb_state := { UP := 0, W := 0, DOWN := 0, S := 0, LEFT := 0, A := 0, RIGHT := 0,
                      D := 0, Q := 0 },
      polls := 0,
      trace := trace ++ [Event.SDL_GetKeyboardState, Event.new_vmodule] }
  let s1 := reset hw s0
  { s1 with trace := s1.trace ++ [Event.SDL_GetPerformanceCounter] }

/-- How far `main` got. -/
inductive MainResult (σ : Type) where
  | returned (status : Int) (trace : List Event)
  | running (s : Sim σ)
  | undef

/-- The function `main` of `simulate.cpp` for a raster of `hres × vres`, with the loop
unrolled at most `fuel` times. -/
def mainWith {σ : Type} (hres vres : Nat) (hw : Hardware σ) (env : Env) (fuel : Nat) :
    MainResult σ :=
  let t0 := [Event.commandArgs, Event.SDL_Init]
  if env.sdl_init < 0 then MainResult.returned 1 (t0 ++ [Event.printf Diag.sdlInitFailed])
  else
    let t1 := t0 ++ [Event.SDL_CreateWindow]
    if !env.window then MainResult.returned 1 (t1 ++ [Event.printf Diag.windowCreationFailed])
    else
      let t2 := t1 ++ [Event.SDL_CreateRenderer]
      if !env.renderer then
        MainResult.returned 1 (t2 ++ [Event.printf Diag.rendererCreationFailed])
      else
        let t3 := t2 ++ [Event.SDL_CreateTexture]
        if !env.texture then
          MainResult.returned 1 (t3 ++ [Event.printf Diag.textureCreationFailed])
        else
          match runLoop hres vres hw env fuel (start hres vres hw env t3) with
          | Run.running s => MainResult.running s
          | Run.undef => MainResult.undef
          | Run.exited s => MainResult.returned 0 (teardown env s.frame_count s.trace)

/-- The program as compiled: `main` on the 640 × 480 raster. -/
def main {σ : Type} (hw : Hardware σ) (env : Env) (fuel : Nat) : MainResult σ :=
  mainWith H_RES V_RES hw env fuel

/-- The state the unrolled loop stands in, when it has one. -/
def Run.state? {α : Type} : Run α → Option α
  | Run.running s => some s
  | Run.exited s => some s
  | Run.undef => none

/-- The exit status of a run of `main` that returned. -/
def MainResult.status? {σ : Type} : MainResult σ → Option Int
  | MainResult.returned c _ => some c
  | _ => none

/-- The input ports seen by the successive `eval()` calls of a trace. -/
def evals : List Event → List Inputs
  | [] => []
  | Event.eval i :: t => i :: evals t
  | _ :: t => evals t

/-- Number of `SDL_RenderPresent` calls in a trace. -/
def presentations (t : List Event) : Nat := t.count Event.SDL_RenderPresent

/-- The quit condition tested at a frame boundary: the one event polled is
`SDL_QUIT`, or the Q key is down. -/
def quitSeen (env : Env) (queue : List EventType) (polls : Nat) : Prop :=
  (queue ++ (env.pump polls).1).head? = some EventType.SDL_QUIT ∨ (env.pump polls).2.Q ≠ 0

instance (env : Env) (queue : List EventType) (polls : Nat) :
    Decidable (quitSeen env queue polls) := by
  unfold quitSeen; infer_instance

/-- One of the four initialisations fails. -/
def initFails (env : Env) : Prop :=
  env.sdl_init < 0 ∨ env.window = false ∨ env.renderer = false ∨ env.texture = false

instance (env : Env) : Decidable (initFails env) := by
  unfold initFails; infer_instance

/-- The calls made before the model is constructed when initialisation succeeds. -/
def initTrace : List Event :=
  [Event.commandArgs, Event.SDL_Init, Event.SDL_CreateWindow, Event.SDL_CreateRenderer,
   Event.SDL_CreateTexture]

/-- The calls that belong to the teardown of lines 126-132. -/
def Event.isTeardown : Event → Bool
  | Event.final => true
  | Event.SDL_DestroyTexture => true
  | Event.SDL_DestroyRenderer => true
  | Event.SDL_DestroyWindow => true
  | Event.SDL_Quit => true
  | _ => false

/-- The calls on the hardware model: its construction and its `eval()`. -/
def Event.isModel : Event → Bool
  | Event.new_vmodule => true
  | Event.eval _ => true
  | Event.final => true
  | _ => false

/-! ## Stand-in hardware models -/

/-- Internal state of a raster scanner: last clock level seen and the
coordinate being driven. -/
structure ScanState where
  clk : Nat
  sx : Nat
  sy : Nat
deriving DecidableEq, Repr

/-- A raster scanner with `w` columns and `rows` lines, the first `h` lines
visible.  It moves on a rising clock edge (to the origin under reset, to the
next coordinate otherwise), asserts data-enable on visible lines and drives
a fixed colour. -/
def rasterHw (w h rows : Nat) (r g b : Nat) : Hardware ScanState where
  init := { clk := 0, sx := 0, sy := 0 }
  mvmt0 := 0
  eval := fun i st =>
    if st.clk = 0 ∧ i.clk_in ≠ 0 then
      if i.rst_in ≠ 0 then { clk := i.clk_in, sx := 0, sy := 0 }
      else if st.sx + 1 < w then { clk := i.clk_in, sx := st.sx + 1, sy := st.sy }
      else if st.sy + 1 < rows then { clk := i.clk_in, sx := 0, sy := st.sy + 1 }
      else { clk := i.clk_in, sx := 0, sy := 0 }
    else { st with clk := i.clk_in }
  out := fun st =>
    { sx_out := st.sx, sy_out := st.sy, de_out := if st.sy < h then 1 else 0,
      r_out := r, g_out := g, b_out := b }

/-- The solid red 2 × 2 source: data-enable always asserted, colour (255, 0, 0). -/
def redHw : Hardware ScanState := rasterHw 2 2 2 255 0 0

/-- A model whose outputs never change. -/
def constHw (o : Outputs) : Hardware Unit where
  init := ()
  mvmt0 := 0
  eval := fun _ _ => ()
  out := fun _ => o

/-- A model that reports the frame boundary of the 640 × 480 raster in every
cycle and never asserts data-enable. -/
def blankHw : Hardware Unit :=
  constHw { sx_out := 0, sy_out := V_RES, de_out := 0, r_out := 0, g_out := 0, b_out := 0 }

/-- A model that asserts data-enable while reporting the coordinate
(640, 0), one column to the right of the 640 × 480 raster, with colour red. -/
def offRasterHw : Hardware Unit :=
  constHw { sx_out := H_RES, sy_out := 0, de_out := 1, r_out := 255, g_out := 0, b_out := 0 }

/-- An environment in which every initialisation succeeds, the stack holds
black transparent pixels, the `k`-th pump delivers `pump k`, and the counter
runs at `frequency` ticks per second. -/
def okEnv (pump : Nat → List EventType × Keyboard) (t0 t1 frequency : Nat) : Env where
  sdl_init := 0
  window := true
  renderer := true
  texture := true
  stack := fun _ => { a := 0, b := 0, g := 0, r := 0 }
  pump := pump
  counter := fun k => if k = 0 then t0 else t1
  frequency := frequency

/-- No key held. -/
def noKeys : Keyboard :=
  { UP := 0, W := 0, DOWN := 0, S := 0, LEFT := 0, A := 0, RIGHT := 0, D := 0, Q := 0 }

/-- A pump that never delivers anything. -/
def idlePump : Nat → List EventType × Keyboard := fun _ => ([], noKeys)

/-- A pump that delivers no event and always reports the keyboard `k`. -/
def keyPump (k : Keyboard) : Nat → List EventType × Keyboard := fun _ => ([], k)

/-- An environment in which UP and RIGHT are held and no event arrives. -/
def upRightEnv : Env := okEnv (keyPump { noKeys with UP := 1, RIGHT := 1 }) 0 2000 1000

/-- A pump whose first delivery is `first` and which stays silent afterwards,
with no key held. -/
def burstPump (first : List EventType) : Nat → List EventType × Keyboard :=
  fun k => if k = 0 then (first, noKeys) else ([], noKeys)

/-- An environment in which the window is closed before the first boundary. -/
def quitEnv : Env := okEnv (burstPump [EventType.SDL_QUIT]) 0 2000 1000

/-- An environment in which `k` other events and then the window-close event
are queued before the first boundary. -/
def busyQuitEnv (k : Nat) : Env :=
  okEnv (burstPump (List.replicate k EventType.other ++ [EventType.SDL_QUIT])) 0 2000 1000

/-- An environment in which `SDL_CreateWindow` returns the null pointer. -/
def noWindowEnv : Env :=
  { okEnv idlePump 0 2000 1000 with window := false }

/-- An environment with all initialisations succeeding and no input at all. -/
def idleEnv : Env := okEnv idlePump 0 2000 1000

/-! ## Basic facts about one iteration -/

section Basic

variable {σ : Type}

@[simp] theorem clockCycle_screenbuffer (hw : Hardware σ) (s : Sim σ) :
    (clockCycle hw s).screenbuffer = s.screenbuffer := rfl

@[simp] theorem clockCycle_frame_count (hw : Hardware σ) (s : Sim σ) :
    (clockCycle hw s).frame_count = s.frame_count := rfl

@[simp] theorem clockCycle_queue (hw : Hardware σ) (s : Sim σ) :
    (clockCycle hw s).queue = s.queue := rfl

@[simp] theorem clockCycle_polls (hw : Hardware σ) (s : Sim σ) :
    (clockCycle hw s).polls = s.polls := rfl

@[simp] theorem clockCycle_keyb_state (hw : Hardware σ) (s : Sim σ) :
    (clockCycle hw s).keyb_state = s.keyb_state := rfl

@[simp] theorem clockCycle_mod_in (hw : Hardware σ) (s : Sim σ) :
    (clockCycle hw s).mod_in = { s.mod_in with clk_in := 0 } := rfl

@[simp] theorem clockCycle_trace (hw : Hardware σ) (s : Sim σ) :
    (clockCycle hw s).trace =
      s.trace ++ [Event.eval { s.mod_in with clk_in := 1 },
                  Event.eval { s.mod_in with clk_in := 0 }] := by
  simp [clockCycle, evalMod, setClk]

@[simp] theorem pollEvent_screenbuffer (env : Env) (s : Sim σ) :
    (pollEvent env s).2.screenbuffer = s.screenbuffer := by
  unfold pollEvent; split <;> rfl

@[simp] theorem pollEvent_frame_count (env : Env) (s : Sim σ) :
    (pollEvent env s).2.frame_count = s.frame_count := by
  unfold pollEvent; split <;> rfl

@[simp] theorem pollEvent_mod_in (env : Env) (s : Sim σ) :
    (pollEvent env s).2.mod_in = s.mod_in := by
  unfold pollEvent; split <;> rfl

@[simp] theorem pollEvent_core (env : Env) (s : Sim σ) :
    (pollEvent env s).2.core = s.core := by
  unfold pollEvent; split <;> rfl

@[simp] theorem pollEvent_polls (env : Env) (s : Sim σ) :
    (pollEvent env s).2.polls = s.polls + 1 := by
  unfold pollEvent; split <;> rfl

@[simp] theorem pollEvent_keyb_state (env : Env) (s : Sim σ) :
    (pollEvent env s).2.keyb_state = (env.pump s.polls).2 := by
  unfold pollEvent; split <;> rfl

@[simp] theorem pollEvent_trace (env : Env) (s : Sim σ) :
    (pollEvent env s).2.trace = s.trace ++ [Event.SDL_PollEvent] := by
  unfold pollEvent; split <;> rfl

theorem pollEvent_fst (env : Env) (s : Sim σ) :
    (pollEvent env s).1 = (s.queue ++ (env.pump s.polls).1).head? := by
  unfold pollEvent; split <;> rename_i h <;> simp [h]

theorem pollEvent_queue (env : Env) (s : Sim σ) :
    (pollEvent env s).2.queue = (s.queue ++ (env.pump s.polls).1).tail := by
  unfold pollEvent; split <;> rename_i h <;> simp [h]

/-- The frame buffer at the end of an iteration is the accumulator's result,
whichever way the iteration ends. -/
theorem cycle_screenbuffer (hres vres : Nat) (hw : Hardware σ) (env : Env) (s : Sim σ) :
    (cycle hres vres hw env s).state?.map (fun t => t.screenbuffer) =
      accumulate hres s.screenbuffer (hw.out (clockCycle hw s).core) := by
  unfold cycle
  simp only [clockCycle_screenbuffer]
  cases hacc : accumulate hres s.screenbuffer (hw.out (clockCycle hw s).core) with
  | none => simp [LoopResult.state?]
  | some buf =>
    simp only []
    split
    · split
      · simp [LoopResult.state?]
      · split <;> simp [LoopResult.state?, present]
    · simp [LoopResult.state?]

/-- Inside the raster the flat index is inside the buffer. -/
theorem index_lt (hres vres x y : Nat) (hx : x < hres) (hy : y < vres) :
    y * hres + x < hres * vres := by
  have h1 : (y + 1) * hres ≤ vres * hres := Nat.mul_le_mul_right hres hy
  have h2 : (y + 1) * hres = y * hres + hres := by ring
  have h3 : vres * hres = hres * vres := Nat.mul_comm _ _
  omega

/-- An iteration that runs to its end at a frame boundary is the
presentation of the polled state. -/
theorem cycle_next_boundary (hres vres : Nat) (hw : Hardware σ) (env : Env) (s s1 : Sim σ)
    (h : cycle hres vres hw env s = LoopResult.next s1)
    (hb : atBoundary vres (hw.out (clockCycle hw s).core) = true) :
    ∃ buf, accumulate hres s.screenbuffer (hw.out (clockCycle hw s).core) = some buf ∧
      (pollEvent env { clockCycle hw s with screenbuffer := buf }).1 ≠ some EventType.SDL_QUIT ∧
      (env.pump s.polls).2.Q = 0 ∧
      s1 = present (pollEvent env { clockCycle hw s with screenbuffer := buf }).2 := by
  unfold cycle at h
  simp only [clockCycle_screenbuffer] at h
  cases hacc : accumulate hres s.screenbuffer (hw.out (clockCycle hw s).core) with
  | none => rw [hacc] at h; simp at h
  | some buf =>
    rw [hacc] at h
    simp only [hb, if_true] at h
    refine ⟨buf, rfl, ?_⟩
    split at h
    · cases h
    · split at h
      · cases h
      · rename_i h1 h2
        simp only [pollEvent_keyb_state, clockCycle_polls, ne_eq, not_not] at h2
        injection h with h
        exact ⟨h1, h2, h.symm⟩

/-- With data-enable low the accumulator leaves the buffer alone. -/
theorem accumulate_de_low (hres : Nat) (buf : List Pixel) (o : Outputs) (h : o.de_out = 0) :
    accumulate hres buf o = some buf := by
  simp [accumulate, h]

/-- The iteration once the accumulator's result is known. -/
theorem cycle_of_acc (hres vres : Nat) (hw : Hardware σ) (env : Env) (s : Sim σ)
    (buf : List Pixel)
    (h : accumulate hres s.screenbuffer (hw.out (clockCycle hw s).core) = some buf) :
    cycle hres vres hw env s =
      if atBoundary vres (hw.out (clockCycle hw s).core) then
        if (pollEvent env { clockCycle hw s with screenbuffer := buf }).1
            = some EventType.SDL_QUIT then
          LoopResult.brk (pollEvent env { clockCycle hw s with screenbuffer := buf }).2
        else if (env.pump s.polls).2.Q ≠ 0 then
          LoopResult.brk (pollEvent env { clockCycle hw s with screenbuffer := buf }).2
        else LoopResult.next (present (pollEvent env { clockCycle hw s with screenbuffer := buf }).2)
      else LoopResult.next { clockCycle hw s with screenbuffer := buf } := by
  unfold cycle
  simp only [clockCycle_screenbuffer]
  rw [h]
  simp

/-- A blanking boundary iteration with no quit request presents the frame. -/
theorem cycle_present (hres vres : Nat) (hw : Hardware σ) (env : Env) (s : Sim σ)
    (hde : (hw.out (clockCycle hw s).core).de_out = 0)
    (hb : atBoundary vres (hw.out (clockCycle hw s).core) = true)
    (hq : (s.queue ++ (env.pump s.polls).1).head? ≠ some EventType.SDL_QUIT)
    (hk : (env.pump s.polls).2.Q = 0) :
    cycle hres vres hw env s = LoopResult.next (present (pollEvent env (clockCycle hw s)).2) := by
  rw [cycle_of_acc hres vres hw env s s.screenbuffer (accumulate_de_low _ _ _ hde)]
  have hq1 : (pollEvent env (clockCycle hw s)).1 ≠ some EventType.SDL_QUIT := by
    rw [pollEvent_fst]; exact hq
  have heta : ({ clockCycle hw s with screenbuffer := s.screenbuffer } : Sim σ)
      = clockCycle hw s := rfl
  rw [heta]
  simp [hb, hq1, hk]

/-- A blanking boundary iteration whose poll returns a quit event, or during
which Q is held, leaves the loop. -/
theorem cycle_quit (hres vres : Nat) (hw : Hardware σ) (env : Env) (s : Sim σ)
    (hde : (hw.out (clockCycle hw s).core).de_out = 0)
    (hb : atBoundary vres (hw.out (clockCycle hw s).core) = true)
    (hq : (s.queue ++ (env.pump s.polls).1).head? = some EventType.SDL_QUIT ∨
      (env.pump s.polls).2.Q ≠ 0) :
    cycle hres vres hw env s = LoopResult.brk (pollEvent env (clockCycle hw s)).2 := by
  rw [cycle_of_acc hres vres hw env s s.screenbuffer (accumulate_de_low _ _ _ hde)]
  have heta : ({ clockCycle hw s with screenbuffer := s.screenbuffer } : Sim σ)
      = clockCycle hw s := rfl
  rw [heta, pollEvent_fst]
  simp only [hb, if_true, clockCycle_queue, clockCycle_polls]
  rcases hq with hq | hq
  · simp [hq]
  · simp [hq]

/-- The four ways an iteration can go. -/
theorem cycle_cases (hres vres : Nat) (hw : Hardware σ) (env : Env) (s : Sim σ) :
    (accumulate hres s.screenbuffer (hw.out (clockCycle hw s).core) = none ∧
      cycle hres vres hw env s = LoopResult.undef) ∨
    (∃ buf, accumulate hres s.screenbuffer (hw.out (clockCycle hw s).core) = some buf ∧
      atBoundary vres (hw.out (clockCycle hw s).core) = false ∧
      cycle hres vres hw env s = LoopResult.next { clockCycle hw s with screenbuffer := buf }) ∨
    (∃ buf, accumulate hres s.screenbuffer (hw.out (clockCycle hw s).core) = some buf ∧
      atBoundary vres (hw.out (clockCycle hw s).core) = true ∧
      quitSeen env s.queue s.polls ∧
      cycle hres vres hw env s =
        LoopResult.brk (pollEvent env { clockCycle hw s with screenbuffer := buf }).2) ∨
    (∃ buf, accumulate hres s.screenbuffer (hw.out (clockCycle hw s).core) = some buf ∧
      atBoundary vres (hw.out (clockCycle hw s).core) = true ∧
      ¬ quitSeen env s.queue s.polls ∧
      cycle hres vres hw env s =
        LoopResult.next (present (pollEvent env { clockCycle hw s with screenbuffer := buf }).2)) := by
  cases hacc : accumulate hres s.screenbuffer (hw.out (clockCycle hw s).core) with
  | none =>
    left
    refine ⟨rfl, ?_⟩
    unfold cycle
    simp only [clockCycle_screenbuffer]
    rw [hacc]
  | some buf =>
    right
    rw [cycle_of_acc hres vres hw env s buf hacc]
    cases hb : atBoundary vres (hw.out (clockCycle hw s).core) with
    | false => left; exact ⟨buf, rfl, rfl, by simp⟩
    | true =>
      right
      by_cases hq : quitSeen env s.queue s.polls
      · left
        refine ⟨buf, rfl, rfl, hq, ?_⟩
        rw [pollEvent_fst]
        rcases hq with hq | hq
        · simp [hq]
        · simp [hq]
      · right
        refine ⟨buf, rfl, rfl, hq, ?_⟩
        rw [pollEvent_fst]
        unfold quitSeen at hq
        push_neg at hq
        simp only [clockCycle_queue, clockCycle_polls, if_neg hq.1, hq.2, ne_eq,
          not_true_eq_false, if_false, if_true]

theorem evals_append (a b : List Event) : evals (a ++ b) = evals a ++ evals b := by
  induction a with
  | nil => rfl
  | cons e t ih => cases e <;> simp [evals, ih]

theorem runLoop_succ (hres vres : Nat) (hw : Hardware σ) (env : Env) (n : Nat) (s : Sim σ) :
    runLoop hres vres hw env (n + 1) s =
      match cycle hres vres hw env s with
      | LoopResult.next s1 => runLoop hres vres hw env n s1
      | LoopResult.brk s1 => Run.exited s1
      | LoopResult.undef => Run.undef := rfl

/-- Any property kept by every iteration holds in every state the loop reaches. -/
theorem runLoop_invariant (hres vres : Nat) (hw : Hardware σ) (env : Env) (P : Sim σ → Prop)
    (hstep : ∀ s s1, P s → (cycle hres vres hw env s).state? = some s1 → P s1) :
    ∀ (fuel : Nat) (s s1 : Sim σ), P s →
      (runLoop hres vres hw env fuel s).state? = some s1 → P s1 := by
  intro fuel
  induction fuel with
  | zero =>
    intro s s1 hs h
    simp only [runLoop, Run.state?, Option.some.injEq] at h
    exact h ▸ hs
  | succ n ih =>
    intro s s1 hs h
    rw [runLoop_succ] at h
    cases hc : cycle hres vres hw env s with
    | next s2 =>
      rw [hc] at h
      exact ih s2 s1 (hstep s s2 hs (by rw [hc]; rfl)) h
    | brk s2 =>
      rw [hc] at h
      simp only [Run.state?, Option.some.injEq] at h
      exact h ▸ hstep s s2 hs (by rw [hc]; rfl)
    | undef =>
      rw [hc] at h
      simp [Run.state?] at h

/-- Running on: if `n` iterations leave the loop running in `s1`, then `n + m`
iterations do what `m` iterations from `s1` do. -/
theorem runLoop_add (hres vres : Nat) (hw : Hardware σ) (env : Env) :
    ∀ (n m : Nat) (s s1 : Sim σ), runLoop hres vres hw env n s = Run.running s1 →
      runLoop hres vres hw env (n + m) s = runLoop hres vres hw env m s1 := by
  intro n
  induction n with
  | zero =>
    intro m s s1 h
    simp only [runLoop, Run.running.injEq] at h
    simp [h]
  | succ n ih =>
    intro m s s1 h
    have hnm : n + 1 + m = (n + m) + 1 := by omega
    rw [hnm, runLoop_succ]
    rw [runLoop_succ] at h
    cases hc : cycle hres vres hw env s with
    | next s2 =>
      rw [hc] at h
      simp only []
      exact ih m s2 s1 h
    | brk s2 => rw [hc] at h; cases h
    | undef => rw [hc] at h; cases h

/-- Once the loop has been left, more fuel changes nothing. -/
theorem runLoop_exited_mono (hres vres : Nat) (hw : Hardware σ) (env : Env) :
    ∀ (n m : Nat) (s s1 : Sim σ), runLoop hres vres hw env n s = Run.exited s1 → n ≤ m →
      runLoop hres vres hw env m s = Run.exited s1 := by
  intro n
  induction n with
  | zero => intro m s s1 h; simp [runLoop] at h
  | succ n ih =>
    intro m s s1 h hnm
    obtain ⟨m1, rfl⟩ : ∃ m1, m = m1 + 1 := ⟨m - 1, by omega⟩
    rw [runLoop_succ] at h ⊢
    cases hc : cycle hres vres hw env s with
    | next s2 =>
      rw [hc] at h
      simp only []
      exact ih m1 s2 s1 h (by omega)
    | brk s2 => rw [hc] at h; simpa using h
    | undef => rw [hc] at h; cases h

/-- What a completed iteration appends to the trace and leaves in the ports,
the counter and the queue. -/
theorem cycle_effect (hres vres : Nat) (hw : Hardware σ) (env : Env) (s s1 : Sim σ)
    (h : (cycle hres vres hw env s).state? = some s1) :
    (atBoundary vres (hw.out (clockCycle hw s).core) = false ∧
      cycle hres vres hw env s = LoopResult.next s1 ∧
      s1.trace = s.trace ++ [Event.eval { s.mod_in with clk_in := 1 },
                             Event.eval { s.mod_in with clk_in := 0 }] ∧
      s1.mod_in = { s.mod_in with clk_in := 0 } ∧
      s1.frame_count = s.frame_count ∧ s1.queue = s.queue ∧ s1.polls = s.polls) ∨
    (atBoundary vres (hw.out (clockCycle hw s).core) = true ∧
      quitSeen env s.queue s.polls ∧
      cycle hres vres hw env s = LoopResult.brk s1 ∧
      s1.trace = s.trace ++ [Event.eval { s.mod_in with clk_in := 1 },
                             Event.eval { s.mod_in with clk_in := 0 },
                             Event.SDL_PollEvent] ∧
      s1.mod_in = { s.mod_in with clk_in := 0 } ∧
      s1.frame_count = s.frame_count ∧
      s1.queue = (s.queue ++ (env.pump s.polls).1).tail ∧ s1.polls = s.polls + 1) ∨
    (atBoundary vres (hw.out (clockCycle hw s).core) = true ∧
      ¬ quitSeen env s.queue s.polls ∧
      cycle hres vres hw env s = LoopResult.next s1 ∧
      s1.trace = s.trace ++ [Event.eval { s.mod_in with clk_in := 1 },
                             Event.eval { s.mod_in with clk_in := 0 },
                             Event.SDL_PollEvent, Event.SDL_UpdateTexture,
                             Event.SDL_RenderClear, Event.SDL_RenderCopy,
                             Event.SDL_RenderPresent] ∧
      s1.mod_in = { s.mod_in with clk_in := 0, mvmt_in := mvmt (env.pump s.polls).2 } ∧
      s1.frame_count = (s.frame_count + 1) % 2 ^ 64 ∧
      s1.queue = (s.queue ++ (env.pump s.polls).1).tail ∧ s1.polls = s.polls + 1) := by
  rcases cycle_cases hres vres hw env s with ⟨-, hc⟩ | ⟨buf, -, hb, hc⟩ | ⟨buf, -, hb, hq, hc⟩ |
      ⟨buf, -, hb, hq, hc⟩
  · rw [hc] at h; simp [LoopResult.state?] at h
  · left
    rw [hc] at h
    simp only [LoopResult.state?, Option.some.injEq] at h
    subst h
    refine ⟨hb, hc, ?_, ?_, ?_, ?_, ?_⟩ <;> simp
  · right; left
    rw [hc] at h
    simp only [LoopResult.state?, Option.some.injEq] at h
    subst h
    refine ⟨hb, hq, hc, ?_, ?_, ?_, ?_, ?_⟩ <;> simp [pollEvent_queue]
  · right; right
    rw [hc] at h
    simp only [LoopResult.state?, Option.some.injEq] at h
    subst h
    refine ⟨hb, hq, hc, ?_, ?_, ?_, ?_, ?_⟩ <;> simp [present, pollEvent_queue]

/-- The `eval()` calls of a completed iteration, and the clock and reset
ports it leaves. -/
theorem cycle_evals (hres vres : Nat) (hw : Hardware σ) (env : Env) (s s1 : Sim σ)
    (h : (cycle hres vres hw env s).state? = some s1) :
    evals s1.trace =
      evals s.trace ++ [{ s.mod_in with clk_in := 1 }, { s.mod_in with clk_in := 0 }] ∧
    s1.mod_in.rst_in = s.mod_in.rst_in ∧ s1.mod_in.clk_in = 0 := by
  rcases cycle_effect hres vres hw env s s1 h with
    ⟨-, -, ht, hm, -⟩ | ⟨-, -, -, ht, hm, -⟩ | ⟨-, -, -, ht, hm, -⟩ <;>
  · rw [ht, hm]
    simp [evals_append, evals]

/-- When every initialisation succeeds, `main` is the loop started after reset
followed by the teardown. -/
theorem mainWith_ok (hres vres : Nat) (hw : Hardware σ) (env : Env) (fuel : Nat)
    (h : ¬ initFails env) :
    mainWith hres vres hw env fuel =
      match runLoop hres vres hw env fuel (start hres vres hw env initTrace) with
      | Run.running s => MainResult.running s
      | Run.undef => MainResult.undef
      | Run.exited s => MainResult.returned 0 (teardown env s.frame_count s.trace) := by
  unfold initFails at h
  push_neg at h
  obtain ⟨h1, h2, h3, h4⟩ := h
  simp only [Bool.not_eq_false] at h2 h3 h4
  unfold mainWith
  simp [h1, h2, h3, h4, initTrace]

/-- The trace with which the loop is entered. -/
theorem start_trace (hres vres : Nat) (hw : Hardware σ) (env : Env) (t : List Event) :
    (start hres vres hw env t).trace =
      t ++ [Event.SDL_GetKeyboardState, Event.new_vmodule,
            Event.eval { rst_in := 1, clk_in := 0, mvmt_in := hw.mvmt0 },
            Event.eval { rst_in := 1, clk_in := 1, mvmt_in := hw.mvmt0 },
            Event.eval { rst_in := 0, clk_in := 0, mvmt_in := hw.mvmt0 },
            Event.SDL_GetPerformanceCounter] := by
  simp [start, reset, evalMod, setClk, setRst]

/-- With data-enable high and the flat index inside the buffer, the
accumulator replaces that slot. -/
theorem accumulate_write (hres : Nat) (buf : List Pixel) (o : Outputs) (hde : o.de_out ≠ 0)
    (hidx : o.sy_out * hres + o.sx_out < buf.length) :
    accumulate hres buf o =
      some (buf.set (o.sy_out * hres + o.sx_out)
        { a := 255, b := o.b_out % 256, g := o.g_out % 256, r := o.r_out % 256 }) := by
  simp [accumulate, writePixel, hde, hidx]

/-- The buffer the loop starts with has the raster's size. -/
theorem start_screenbuffer_length (hres vres : Nat) (hw : Hardware σ) (env : Env)
    (t : List Event) : (start hres vres hw env t).screenbuffer.length = hres * vres := by
  simp [start, reset, evalMod, setClk, setRst]

/-- Slot `i` of the buffer the loop starts with is whatever the stack held. -/
theorem start_screenbuffer_get (hres vres : Nat) (hw : Hardware σ) (env : Env)
    (t : List Event) (i : Nat) (h : i < hres * vres) :
    (start hres vres hw env t).screenbuffer[i]? = some (env.stack i) := by
  simp [start, reset, evalMod, setClk, setRst, List.getElem?_range h]

theorem presentations_append (a b : List Event) :
    presentations (a ++ b) = presentations a + presentations b := by
  simp [presentations, List.count_append]

/-- The counter and the number of presentations across a completed iteration:
both move exactly when the iteration completes at a frame boundary. -/
theorem cycle_frame_count (hres vres : Nat) (hw : Hardware σ) (env : Env) (s s1 : Sim σ)
    (h : (cycle hres vres hw env s).state? = some s1) :
    (atBoundary vres (hw.out (clockCycle hw s).core) = true ∧
      cycle hres vres hw env s = LoopResult.next s1 ∧
      s1.frame_count = (s.frame_count + 1) % 2 ^ 64 ∧
      presentations s1.trace = presentations s.trace + 1) ∨
    (¬ (atBoundary vres (hw.out (clockCycle hw s).core) = true ∧
        cycle hres vres hw env s = LoopResult.next s1) ∧
      s1.frame_count = s.frame_count ∧
      presentations s1.trace = presentations s.trace) := by
  rcases cycle_effect hres vres hw env s s1 h with
    ⟨hb, -, ht, -, hf, -⟩ | ⟨-, -, hc, ht, -, hf, -⟩ | ⟨hb, -, hc, ht, -, hf, -⟩
  · right
    refine ⟨by simp [hb], hf, ?_⟩
    rw [ht, presentations_append]
    simp [presentations]
  · right
    refine ⟨by simp [hc], hf, ?_⟩
    rw [ht, presentations_append]
    simp [presentations]
  · left
    refine ⟨hb, hc, hf, ?_⟩
    rw [ht, presentations_append]
    simp [presentations]

/-- Each iteration presents at most one frame, so `fuel` iterations present
at most `fuel` frames. -/
theorem runLoop_presentations_le (hres vres : Nat) (hw : Hardware σ) (env : Env) :
    ∀ (fuel : Nat) (s s1 : Sim σ), (runLoop hres vres hw env fuel s).state? = some s1 →
      presentations s1.trace ≤ presentations s.trace + fuel := by
  intro fuel
  induction fuel with
  | zero =>
    intro s s1 h
    simp only [runLoop, Run.state?, Option.some.injEq] at h
    rw [← h]; omega
  | succ n ih =>
    intro s s1 h
    rw [runLoop_succ] at h
    cases hc : cycle hres vres hw env s with
    | next s2 =>
      rw [hc] at h
      have h1 := ih s2 s1 h
      rcases cycle_frame_count hres vres hw env s s2 (by rw [hc]; rfl) with
        ⟨-, -, -, hp⟩ | ⟨-, -, hp⟩ <;> omega
    | brk s2 =>
      rw [hc] at h
      simp only [Run.state?, Option.some.injEq] at h
      subst h
      rcases cycle_frame_count hres vres hw env s s2 (by rw [hc]; rfl) with
        ⟨-, -, -, hp⟩ | ⟨-, -, hp⟩ <;> omega
    | undef =>
      rw [hc] at h
      simp [Run.state?] at h

theorem busyQuitEnv_Q (k p : Nat) : ((busyQuitEnv k).pump p).2.Q = 0 := by
  show (if p = 0 then _ else _ : List EventType × Keyboard).2.Q = 0
  split <;> rfl

theorem busyQuitEnv_silent (k p : Nat) (hp : 0 < p) : ((busyQuitEnv k).pump p).1 = [] := by
  show (if p = 0 then _ else _ : List EventType × Keyboard).1 = []
  rw [if_neg (by omega)]

theorem busyQuitEnv_first (k : Nat) :
    ((busyQuitEnv k).pump 0).1 = List.replicate k EventType.other ++ [EventType.SDL_QUIT] :=
  rfl

/-- Against the always-blanking model, with Q never held and no further
arrivals, a quit event with `j` other events ahead of it in the queue lets the
loop run through `j` boundaries and ends it at the next one. -/
theorem blank_quit_run (env : Env) (hQ : ∀ p, (env.pump p).2.Q = 0) :
    ∀ (j : Nat) (s : Sim Unit), (∀ p, s.polls < p → (env.pump p).1 = []) →
      s.queue ++ (env.pump s.polls).1 =
        List.replicate j EventType.other ++ [EventType.SDL_QUIT] →
      (∃ s1, runLoop H_RES V_RES blankHw env j s = Run.running s1 ∧ s1.polls = s.polls + j) ∧
      ∃ s2, runLoop H_RES V_RES blankHw env (j + 1) s = Run.exited s2 := by
  intro j
  induction j with
  | zero =>
    intro s _ hq
    refine ⟨⟨s, rfl, rfl⟩, (pollEvent env (clockCycle blankHw s)).2, ?_⟩
    rw [runLoop_succ, cycle_quit H_RES V_RES blankHw env s rfl rfl (Or.inl (by rw [hq]; rfl))]
  | succ j ih =>
    intro s hsil hq
    have hc : cycle H_RES V_RES blankHw env s =
        LoopResult.next (present (pollEvent env (clockCycle blankHw s)).2) :=
      cycle_present H_RES V_RES blankHw env s rfl rfl
        (by rw [hq]; simp [List.replicate_succ]) (hQ _)
    have hp : (present (pollEvent env (clockCycle blankHw s)).2).polls = s.polls + 1 := by
      simp [present]
    have hqu : (present (pollEvent env (clockCycle blankHw s)).2).queue =
        List.replicate j EventType.other ++ [EventType.SDL_QUIT] := by
      simp [present, pollEvent_queue, hq, List.replicate_succ]
    obtain ⟨⟨s1, hrun, hpolls⟩, s2, hexit⟩ :=
      ih (present (pollEvent env (clockCycle blankHw s)).2)
        (fun p hlt => hsil p (by rw [hp] at hlt; omega))
        (by rw [hqu, hp, hsil (s.polls + 1) (by omega)]; simp)
    refine ⟨⟨s1, ?_, ?_⟩, s2, ?_⟩
    · rw [runLoop_succ, hc]; exact hrun
    · rw [hpolls, hp]; omega
    · rw [runLoop_succ, hc]; exact hexit

/-- A run that reaches a quitting iteration returns 0 after the teardown, for
every larger amount of fuel as well. -/
theorem mainWith_returns (hres vres : Nat) (hw : Hardware σ) (env : Env) (n m : Nat)
    (s : Sim σ) (hok : ¬ initFails env)
    (hrun : runLoop hres vres hw env n (start hres vres hw env initTrace) = Run.running s)
    (hbrk : (cycle hres vres hw env s).isBrk = true) (hm : n + 1 ≤ m) :
    ∃ s1, cycle hres vres hw env s = LoopResult.brk s1 ∧
      mainWith hres vres hw env m = MainResult.returned 0 (teardown env s1.frame_count s1.trace) := by
  cases hc : cycle hres vres hw env s with
  | next s1 => rw [hc] at hbrk; cases hbrk
  | undef => rw [hc] at hbrk; cases hbrk
  | brk s1 =>
    refine ⟨s1, rfl, ?_⟩
    have h1 : runLoop hres vres hw env (n + 1) (start hres vres hw env initTrace) =
        Run.exited s1 := by
      rw [runLoop_add hres vres hw env n 1 _ s hrun, runLoop_succ, hc]
    have h2 := runLoop_exited_mono hres vres hw env (n + 1) m _ s1 h1 hm
    rw [mainWith_ok hres vres hw env m hok, h2]

/-- The four failure paths of lines 25-56. -/
theorem mainWith_init_failure (hres vres : Nat) (hw : Hardware σ) (env : Env) (fuel : Nat) :
    (env.sdl_init < 0 → mainWith hres vres hw env fuel = MainResult.returned 1
      [Event.commandArgs, Event.SDL_Init, Event.printf Diag.sdlInitFailed]) ∧
    (¬ env.sdl_init < 0 → env.window = false →
      mainWith hres vres hw env fuel = MainResult.returned 1
        [Event.commandArgs, Event.SDL_Init, Event.SDL_CreateWindow,
         Event.printf Diag.windowCreationFailed]) ∧
    (¬ env.sdl_init < 0 → env.window = true → env.renderer = false →
      mainWith hres vres hw env fuel = MainResult.returned 1
        [Event.commandArgs, Event.SDL_Init, Event.SDL_CreateWindow, Event.SDL_CreateRenderer,
         Event.printf Diag.rendererCreationFailed]) ∧
    (¬ env.sdl_init < 0 → env.window = true → env.renderer = true → env.texture = false →
      mainWith hres vres hw env fuel = MainResult.returned 1
        [Event.commandArgs, Event.SDL_Init, Event.SDL_CreateWindow, Event.SDL_CreateRenderer,
         Event.SDL_CreateTexture, Event.printf Diag.textureCreationFailed]) := by
  refine ⟨?_, ?_, ?_, ?_⟩
  · intro h; simp [mainWith, h]
  · intro h1 h2; simp [mainWith, h1, h2]
  · intro h1 h2 h3; simp [mainWith, h1, h2, h3]
  · intro h1 h2 h3 h4; simp [mainWith, h1, h2, h3, h4]

/-- A failed initialisation makes `main` return 1 at once, after the
diagnostic and without any call on the model. -/
theorem init_failure_returns (hres vres : Nat) (hw : Hardware σ) (env : Env) (fuel : Nat)
    (hf : initFails env) :
    ∃ tr d, mainWith hres vres hw env fuel = MainResult.returned 1 tr ∧
      tr.getLast? = some (Event.printf d) ∧ ∀ e ∈ tr, e.isModel = false := by
  obtain ⟨f1, f2, f3, f4⟩ := mainWith_init_failure hres vres hw env fuel
  by_cases h1 : env.sdl_init < 0
  · exact ⟨_, _, f1 h1, rfl, by decide⟩
  · cases h2 : env.window with
    | false => exact ⟨_, _, f2 h1 h2, rfl, by decide⟩
    | true =>
      cases h3 : env.renderer with
      | false => exact ⟨_, _, f3 h1 h2 h3, rfl, by decide⟩
      | true =>
        cases h4 : env.texture with
        | false => exact ⟨_, _, f4 h1 h2 h3 h4, rfl, by decide⟩
        | true =>
          exfalso
          rcases hf with hf | hf | hf | hf
          · exact h1 hf
          · rw [h2] at hf; cases hf
          · rw [h3] at hf; cases hf
          · rw [h4] at hf; cases hf

/-- No teardown call is made while the loop runs. -/
theorem runLoop_no_teardown (hres vres : Nat) (hw : Hardware σ) (env : Env) (fuel : Nat)
    (s : Sim σ)
    (h : (runLoop hres vres hw env fuel (start hres vres hw env initTrace)).state? = some s) :
    ∀ e ∈ s.trace, e.isTeardown = false := by
  refine runLoop_invariant hres vres hw env (fun s => ∀ e ∈ s.trace, e.isTeardown = false)
    ?_ fuel _ s ?_ h
  · intro s s1 hs h1 e he
    rcases cycle_effect hres vres hw env s s1 h1 with
      ⟨-, -, ht, -⟩ | ⟨-, -, -, ht, -⟩ | ⟨-, -, -, ht, -⟩ <;>
    · rw [ht] at he
      rcases List.mem_append.mp he with he | he
      · exact hs e he
      · simp only [List.mem_cons, List.mem_singleton, List.not_mem_nil, or_false] at he
        rcases he with rfl | rfl | rfl | rfl | rfl | rfl | rfl <;> rfl
  · intro e he
    rw [start_trace] at he
    rcases List.mem_append.mp he with he | he
    · simp only [initTrace, List.mem_cons, List.mem_singleton, List.not_mem_nil, or_false] at he
      rcases he with rfl | rfl | rfl | rfl | rfl <;> rfl
    · simp only [List.mem_cons, List.mem_singleton, List.not_mem_nil, or_false] at he
      rcases he with rfl | rfl | rfl | rfl | rfl | rfl <;> rfl

end Basic

/-! ## Frame Accumulator -/

/-- C1. Frame Accumulator postcondition. For every frame buffer of the raster's
size and every iteration of the main loop: when `de_out` is asserted after the
clock step, the coordinate is inside the raster and the colour ports carry
8-bit values, the iteration ends in a state whose buffer is the old buffer
with exactly the slot `sy_out * width + sx_out` replaced by
`{a = 255, r = r_out, g = g_out, b = b_out}` (that slot holds the pixel, every
other slot is unchanged); when `de_out` is not asserted the buffer is
unchanged. Every buffer the loop reaches from reset has the raster's size.
For the solid red 2 × 2 source, after one full scan (four cycles from reset)
every slot is `{a = 255, r = 255, g = 0, b = 0}`. -/
theorem frame_accumulator_postcondition :
    (∀ (σ : Type) (hres vres : Nat) (hw : Hardware σ) (env : Env) (s : Sim σ) (o : Outputs),
      s.screenbuffer.length = hres * vres →
      o = hw.out (clockCycle hw s).core →
      (o.de_out ≠ 0 → o.sx_out < hres → o.sy_out < vres →
        o.r_out < 256 → o.g_out < 256 → o.b_out < 256 →
        ∃ s1, (cycle hres vres hw env s).state? = some s1 ∧
          s1.screenbuffer =
            s.screenbuffer.set (o.sy_out * hres + o.sx_out)
              { a := 255, b := o.b_out, g := o.g_out, r := o.r_out } ∧
          s1.screenbuffer.length = hres * vres ∧
          s1.screenbuffer[o.sy_out * hres + o.sx_out]? =
            some { a := 255, b := o.b_out, g := o.g_out, r := o.r_out } ∧
          ∀ i, i ≠ o.sy_out * hres + o.sx_out → s1.screenbuffer[i]? = s.screenbuffer[i]?) ∧
      (o.de_out = 0 →
        ∃ s1, (cycle hres vres hw env s).state? = some s1 ∧
          s1.screenbuffer = s.screenbuffer)) ∧
    (∀ (σ : Type) (hres vres : Nat) (hw : Hardware σ) (env : Env) (t : List Event)
      (fuel : Nat) (s : Sim σ),
      (runLoop hres vres hw env fuel (start hres vres hw env t)).state? = some s →
      s.screenbuffer.length = hres * vres) ∧
    (∀ (env : Env) (t : List Event),
      ∃ s1, runLoop 2 2 redHw env 4 (start 2 2 redHw env t) = Run.running s1 ∧
        s1.screenbuffer = List.replicate 4 { a := 255, b := 0, g := 0, r := 255 }) := by
  refine ⟨?_, ?_, ?_⟩
  rotate_left
  · intro σ hres vres hw env t fuel s h
    refine runLoop_invariant hres vres hw env (fun s => s.screenbuffer.length = hres * vres)
      ?_ fuel _ s (start_screenbuffer_length hres vres hw env t) h
    intro s s1 hs h1
    have hb := cycle_screenbuffer hres vres hw env s
    rw [h1] at hb
    simp only [Option.map_some'] at hb
    have hacc := hb.symm
    unfold accumulate writePixel at hacc
    split at hacc
    · split at hacc
      · simp only [Option.some.injEq] at hacc
        rw [← hacc, List.length_set, hs]
      · cases hacc
    · simp only [Option.some.injEq] at hacc
      rw [← hacc, hs]
  rotate_left
  · intro σ hres vres hw env s o hlen ho
    have hb := cycle_screenbuffer hres vres hw env s
    rw [← ho] at hb
    refine ⟨?_, ?_⟩
    · intro hde hx hy hr hg hbl
      have hidx : o.sy_out * hres + o.sx_out < s.screenbuffer.length := by
        rw [hlen]; exact index_lt hres vres _ _ hx hy
      have hacc : accumulate hres s.screenbuffer o =
          some (s.screenbuffer.set (o.sy_out * hres + o.sx_out)
            { a := 255, b := o.b_out, g := o.g_out, r := o.r_out }) := by
        simp [accumulate, writePixel, hde, hidx, Nat.mod_eq_of_lt hr, Nat.mod_eq_of_lt hg,
          Nat.mod_eq_of_lt hbl]
      rw [hacc] at hb
      obtain ⟨s1, hs1, hbuf⟩ := Option.map_eq_some'.mp hb
      refine ⟨s1, hs1, hbuf, ?_, ?_, ?_⟩
      · rw [hbuf, List.length_set, hlen]
      · rw [hbuf]; simp [hidx]
      · intro i hi
        rw [hbuf]
        exact List.getElem?_set_ne (Ne.symm hi)
    · intro hde
      have hacc : accumulate hres s.screenbuffer o = some s.screenbuffer := by
        simp [accumulate, hde]
      rw [hacc] at hb
      obtain ⟨s1, hs1, hbuf⟩ := Option.map_eq_some'.mp hb
      exact ⟨s1, hs1, hbuf⟩
  · intro env t
    simp [runLoop, cycle, start, reset, clockCycle, evalMod, setClk, setRst, redHw, rasterHw,
      accumulate, writePixel, atBoundary, List.range, List.range.loop]

/-- C1 at a concrete input: the first cycle of the red 2 × 2 source after reset
reports (1, 0) and stores the red pixel in slot 1. -/
theorem frame_accumulator_postcondition_witness :
    (start 2 2 redHw idleEnv []).screenbuffer.length = 2 * 2 ∧
    ∃ s1, (cycle 2 2 redHw idleEnv (start 2 2 redHw idleEnv [])).state? = some s1 ∧
      s1.screenbuffer =
        (start 2 2 redHw idleEnv []).screenbuffer.set (0 * 2 + 1)
          { a := 255, b := 0, g := 0, r := 255 } ∧
      s1.screenbuffer.length = 2 * 2 ∧
      s1.screenbuffer[0 * 2 + 1]? = some { a := 255, b := 0, g := 0, r := 255 } ∧
      ∀ i, i ≠ 0 * 2 + 1 →
        s1.screenbuffer[i]? = (start 2 2 redHw idleEnv []).screenbuffer[i]? :=
  ⟨by decide,
   ((frame_accumulator_postcondition.1 ScanState 2 2 redHw idleEnv (start 2 2 redHw idleEnv [])
      { sx_out := 1, sy_out := 0, de_out := 1, r_out := 255, g_out := 0, b_out := 0 }
      (by decide) (by decide)).1
      (by decide) (by decide) (by decide) (by decide) (by decide) (by decide))⟩

/-! ## Input Bridge -/

/-- The C value of `x || y` is 0 or 1, and 1 exactly when a key is down. -/
theorem lor_cases (x y : Nat) :
    (lor x y = 0 ∧ ¬ (x ≠ 0 ∨ y ≠ 0)) ∨ (lor x y = 1 ∧ (x ≠ 0 ∨ y ≠ 0)) := by
  unfold lor
  by_cases h : x ≠ 0 ∨ y ≠ 0
  · right; simp [h]
  · left; simp [h]

/-- C2. Input Bridge encoding. For every keyboard state the value assigned to
`mvmt_in` is below 16, its bit 3 is (UP or W), bit 2 is (DOWN or S), bit 1 is
(LEFT or A), bit 0 is (RIGHT or D); every iteration that completes at a frame
boundary leaves exactly this value, computed from the keyboard as refreshed by
that boundary's poll, in `mvmt_in`; only up gives 8 (0b1000), up and right give
9 (0b1001), no key gives 0. -/
theorem input_bridge_encoding :
    (∀ k : Keyboard,
      mvmt k < 16 ∧
      ((mvmt k).testBit 3 = true ↔ (k.UP ≠ 0 ∨ k.W ≠ 0)) ∧
      ((mvmt k).testBit 2 = true ↔ (k.DOWN ≠ 0 ∨ k.S ≠ 0)) ∧
      ((mvmt k).testBit 1 = true ↔ (k.LEFT ≠ 0 ∨ k.A ≠ 0)) ∧
      ((mvmt k).testBit 0 = true ↔ (k.RIGHT ≠ 0 ∨ k.D ≠ 0))) ∧
    (∀ (σ : Type) (hres vres : Nat) (hw : Hardware σ) (env : Env) (s s1 : Sim σ),
      cycle hres vres hw env s = LoopResult.next s1 →
      atBoundary vres (hw.out (clockCycle hw s).core) = true →
      s1.mod_in.mvmt_in = mvmt (env.pump s.polls).2) ∧
    mvmt { noKeys with UP := 1 } = 0b1000 ∧
    mvmt { noKeys with W := 1 } = 0b1000 ∧
    mvmt { noKeys with UP := 1, RIGHT := 1 } = 0b1001 ∧
    mvmt noKeys = 0b0000 := by
  refine ⟨?_, ?_, by decide, by decide, by decide, by decide⟩
  · intro k
    unfold mvmt
    rcases lor_cases k.UP k.W with ⟨h3, p3⟩ | ⟨h3, p3⟩ <;>
    rcases lor_cases k.DOWN k.S with ⟨h2, p2⟩ | ⟨h2, p2⟩ <;>
    rcases lor_cases k.LEFT k.A with ⟨h1, p1⟩ | ⟨h1, p1⟩ <;>
    rcases lor_cases k.RIGHT k.D with ⟨h0, p0⟩ | ⟨h0, p0⟩ <;>
    rw [h3, h2, h1, h0] <;>
    simp only [p3, p2, p1, p0, iff_true, iff_false] <;>
    decide
  · intro σ hres vres hw env s s1 h hb
    obtain ⟨buf, -, -, -, hs1⟩ := cycle_next_boundary hres vres hw env s s1 h hb
    rw [hs1]
    simp [present]

/-- C2 at a concrete input: with UP and RIGHT held at the first boundary of
the always-blanking model, the iteration completes and `mvmt_in` is 9. -/
theorem input_bridge_encoding_witness :
    cycle H_RES V_RES blankHw upRightEnv (start H_RES V_RES blankHw upRightEnv [])
      = LoopResult.next
          (present (pollEvent upRightEnv
            (clockCycle blankHw (start H_RES V_RES blankHw upRightEnv []))).2) ∧
    atBoundary V_RES
      (blankHw.out (clockCycle blankHw (start H_RES V_RES blankHw upRightEnv [])).core) = true ∧
    (present (pollEvent upRightEnv
        (clockCycle blankHw (start H_RES V_RES blankHw upRightEnv []))).2).mod_in.mvmt_in
      = mvmt (upRightEnv.pump (start H_RES V_RES blankHw upRightEnv []).polls).2 ∧
    mvmt (upRightEnv.pump (start H_RES V_RES blankHw upRightEnv []).polls).2 = 9 :=
  ⟨cycle_present H_RES V_RES blankHw upRightEnv _ (by rfl) (by rfl) (by decide) (by decide),
   by rfl,
   input_bridge_encoding.2.1 Unit H_RES V_RES blankHw upRightEnv
     (start H_RES V_RES blankHw upRightEnv [])
     (present (pollEvent upRightEnv
            (clockCycle blankHw (start H_RES V_RES blankHw upRightEnv []))).2)
     (cycle_present H_RES V_RES blankHw upRightEnv _ (by rfl) (by rfl) (by decide) (by decide))
     (by rfl),
   by decide⟩

/-! ## Clock Sequencer -/

/-- C3 as stated fails. In the first iteration of the loop against the
always-blanking model the hardware is evaluated twice, with the clock high and
then low; the iteration does not make three `eval()` calls and does not start
with a clock-low evaluation. -/
theorem clock_step_counterexample :
    ∃ s1, cycle H_RES V_RES blankHw idleEnv (start H_RES V_RES blankHw idleEnv initTrace)
        = LoopResult.next s1 ∧
      (evals s1.trace).drop (evals (start H_RES V_RES blankHw idleEnv initTrace).trace).length
        = [{ rst_in := 0, clk_in := 1, mvmt_in := 0 },
           { rst_in := 0, clk_in := 0, mvmt_in := 0 }] ∧
      ((evals s1.trace).drop
        (evals (start H_RES V_RES blankHw idleEnv initTrace).trace).length).length ≠ 3 ∧
      ((evals s1.trace).drop
        (evals (start H_RES V_RES blankHw idleEnv initTrace).trace).length).map
          (fun i => i.clk_in) ≠ [0, 1, 0] := by
  refine ⟨_, cycle_present H_RES V_RES blankHw idleEnv _ (by rfl) (by rfl) (by decide)
    (by decide), ?_, ?_, ?_⟩ <;> decide

/-- C3, amended. Every completed iteration of the main loop appends to the
trace exactly two `eval()` calls, the first with `clk_in = 1` and the second
with `clk_in = 0` (the other input ports as they were), followed by no further
`eval()`; it leaves `clk_in = 0`. Every state the loop reaches from reset has
`clk_in = 0`, so each iteration makes one rising and one falling clock edge. -/
theorem clock_step_two_evals :
    (∀ (σ : Type) (hres vres : Nat) (hw : Hardware σ) (env : Env) (s s1 : Sim σ),
      (cycle hres vres hw env s).state? = some s1 →
      (∃ tail, s1.trace = s.trace ++ (Event.eval { s.mod_in with clk_in := 1 } ::
            Event.eval { s.mod_in with clk_in := 0 } :: tail) ∧ evals tail = []) ∧
      evals s1.trace =
        evals s.trace ++ [{ s.mod_in with clk_in := 1 }, { s.mod_in with clk_in := 0 }] ∧
      s1.mod_in.clk_in = 0) ∧
    (∀ (σ : Type) (hres vres : Nat) (hw : Hardware σ) (env : Env) (t : List Event)
      (fuel : Nat) (s : Sim σ),
      (runLoop hres vres hw env fuel (start hres vres hw env t)).state? = some s →
      s.mod_in.clk_in = 0) := by
  refine ⟨?_, ?_⟩
  · intro σ hres vres hw env s s1 h
    obtain ⟨he, -, hc⟩ := cycle_evals hres vres hw env s s1 h
    refine ⟨?_, he, hc⟩
    rcases cycle_effect hres vres hw env s s1 h with
      ⟨-, -, ht, -⟩ | ⟨-, -, -, ht, -⟩ | ⟨-, -, -, ht, -⟩
    · exact ⟨[], by simpa using ht, rfl⟩
    · exact ⟨[Event.SDL_PollEvent], by simpa using ht, rfl⟩
    · exact ⟨[Event.SDL_PollEvent, Event.SDL_UpdateTexture, Event.SDL_RenderClear,
        Event.SDL_RenderCopy, Event.SDL_RenderPresent], by simpa using ht, rfl⟩
  · intro σ hres vres hw env t fuel s h
    refine runLoop_invariant hres vres hw env (fun s => s.mod_in.clk_in = 0) ?_ fuel _ s rfl h
    intro s s1 _ h1
    exact (cycle_evals hres vres hw env s s1 h1).2.2

/-- C3 amended, at a concrete input: the first iteration against the
always-blanking model. -/
theorem clock_step_two_evals_witness :
    (cycle H_RES V_RES blankHw idleEnv (start H_RES V_RES blankHw idleEnv initTrace)).state?
      = some (present (pollEvent idleEnv
          (clockCycle blankHw (start H_RES V_RES blankHw idleEnv initTrace))).2) ∧
    evals (present (pollEvent idleEnv
          (clockCycle blankHw (start H_RES V_RES blankHw idleEnv initTrace))).2).trace =
      evals (start H_RES V_RES blankHw idleEnv initTrace).trace ++
        [{ (start H_RES V_RES blankHw idleEnv initTrace).mod_in with clk_in := 1 },
         { (start H_RES V_RES blankHw idleEnv initTrace).mod_in with clk_in := 0 }] :=
  ⟨by rw [cycle_present H_RES V_RES blankHw idleEnv _ (by rfl) (by rfl) (by decide) (by decide)]
      rfl,
   (clock_step_two_evals.1 Unit H_RES V_RES blankHw idleEnv
      (start H_RES V_RES blankHw idleEnv initTrace) _
      (by rw [cycle_present H_RES V_RES blankHw idleEnv _ (by rfl) (by rfl) (by decide)
            (by decide)]
          rfl)).2.1⟩

/-! ## Reset -/

/-- C5 as stated fails. Against a model that asserts data-enable at
(640, 0), outside the 640 × 480 raster, the first iteration is not a no-op on
the frame buffer: slot 640, the first pixel of line 1, held the initial black
pixel and holds the red pixel afterwards. -/
theorem bounds_check_counterexample :
    offRasterHw.out (clockCycle offRasterHw
      (start H_RES V_RES offRasterHw idleEnv initTrace)).core =
      { sx_out := 640, sy_out := 0, de_out := 1, r_out := 255, g_out := 0, b_out := 0 } ∧
    H_RES ≤ 640 ∧
    ∃ buf1, (cycle H_RES V_RES offRasterHw idleEnv
        (start H_RES V_RES offRasterHw idleEnv initTrace)).state?.map (fun t => t.screenbuffer)
          = some buf1 ∧
      (start H_RES V_RES offRasterHw idleEnv initTrace).screenbuffer[640]? =
        some { a := 0, b := 0, g := 0, r := 0 } ∧
      buf1[640]? = some { a := 255, b := 0, g := 0, r := 255 } ∧
      buf1 ≠ (start H_RES V_RES offRasterHw idleEnv initTrace).screenbuffer := by
  have hlen := start_screenbuffer_length H_RES V_RES offRasterHw idleEnv initTrace
  have hidx : 640 < (start H_RES V_RES offRasterHw idleEnv initTrace).screenbuffer.length := by
    rw [hlen]; decide
  have hget : (start H_RES V_RES offRasterHw idleEnv initTrace).screenbuffer[640]? =
      some { a := 0, b := 0, g := 0, r := 0 } := by
    rw [start_screenbuffer_get H_RES V_RES offRasterHw idleEnv initTrace 640 (by decide)]
    rfl
  have hacc : accumulate H_RES (start H_RES V_RES offRasterHw idleEnv initTrace).screenbuffer
      (offRasterHw.out (clockCycle offRasterHw
        (start H_RES V_RES offRasterHw idleEnv initTrace)).core) =
      some ((start H_RES V_RES offRasterHw idleEnv initTrace).screenbuffer.set 640
        { a := 255, b := 0, g := 0, r := 255 }) :=
    accumulate_write H_RES _
      { sx_out := H_RES, sy_out := 0, de_out := 1, r_out := 255, g_out := 0, b_out := 0 }
      (by decide) hidx
  have hset : ((start H_RES V_RES offRasterHw idleEnv initTrace).screenbuffer.set 640
      ({ a := 255, b := 0, g := 0, r := 255 } : Pixel))[640]? =
      some { a := 255, b := 0, g := 0, r := 255 } := List.getElem?_set_self hidx
  refine ⟨rfl, by decide, _, (cycle_screenbuffer _ _ _ _ _).trans hacc, hget, hset, ?_⟩
  intro heq
  rw [heq, hget] at hset
  exact absurd hset (by decide)

/-- C5, amended. The Frame Accumulator does not validate the coordinate. In
every cycle in which data-enable is asserted, on a buffer of the raster's
size: if the flat index `sy_out * width + sx_out` is below `width * height`
the iteration stores the pixel in that slot, whether or not `sx_out < width`;
if the index is at or beyond `width * height` the store is outside the buffer
and the iteration has no defined result. -/
theorem accumulator_unchecked_write :
    ∀ (σ : Type) (hres vres : Nat) (hw : Hardware σ) (env : Env) (s : Sim σ) (o : Outputs),
      s.screenbuffer.length = hres * vres →
      o = hw.out (clockCycle hw s).core →
      o.de_out ≠ 0 →
      (o.sy_out * hres + o.sx_out < hres * vres →
        ∃ s1, (cycle hres vres hw env s).state? = some s1 ∧
          s1.screenbuffer = s.screenbuffer.set (o.sy_out * hres + o.sx_out)
            { a := 255, b := o.b_out % 256, g := o.g_out % 256, r := o.r_out % 256 } ∧
          s1.screenbuffer[o.sy_out * hres + o.sx_out]? =
            some { a := 255, b := o.b_out % 256, g := o.g_out % 256, r := o.r_out % 256 }) ∧
      (hres * vres ≤ o.sy_out * hres + o.sx_out →
        cycle hres vres hw env s = LoopResult.undef) := by
  intro σ hres vres hw env s o hlen ho hde
  refine ⟨?_, ?_⟩
  · intro hidx
    have hb := cycle_screenbuffer hres vres hw env s
    rw [← ho] at hb
    have hidx1 : o.sy_out * hres + o.sx_out < s.screenbuffer.length := by rw [hlen]; exact hidx
    have hacc : accumulate hres s.screenbuffer o =
        some (s.screenbuffer.set (o.sy_out * hres + o.sx_out)
          { a := 255, b := o.b_out % 256, g := o.g_out % 256, r := o.r_out % 256 }) := by
      simp [accumulate, writePixel, hde, hidx1]
    rw [hacc] at hb
    obtain ⟨s1, hs1, hbuf⟩ := Option.map_eq_some'.mp hb
    refine ⟨s1, hs1, hbuf, ?_⟩
    rw [hbuf]
    exact List.getElem?_set_self hidx1
  · intro hidx
    have hidx1 : ¬ o.sy_out * hres + o.sx_out < s.screenbuffer.length := by
      rw [hlen]; omega
    have hacc : accumulate hres s.screenbuffer (hw.out (clockCycle hw s).core) = none := by
      rw [← ho]
      simp [accumulate, writePixel, hde, hidx1]
    rcases cycle_cases hres vres hw env s with ⟨-, hc⟩ | ⟨buf, h, -⟩ | ⟨buf, h, -⟩ | ⟨buf, h, -⟩
    · exact hc
    · rw [hacc] at h; cases h
    · rw [hacc] at h; cases h
    · rw [hacc] at h; cases h

/-- C5 amended, at a concrete input: the store at (640, 0) on the
640 × 480 raster lands in slot 640. -/
theorem accumulator_unchecked_write_witness :
    (start H_RES V_RES offRasterHw idleEnv initTrace).screenbuffer.length = H_RES * V_RES ∧
    0 * H_RES + 640 < H_RES * V_RES ∧
    ∃ s1, (cycle H_RES V_RES offRasterHw idleEnv
        (start H_RES V_RES offRasterHw idleEnv initTrace)).state? = some s1 ∧
      s1.screenbuffer =
        (start H_RES V_RES offRasterHw idleEnv initTrace).screenbuffer.set (0 * H_RES + 640)
          { a := 255, b := 0 % 256, g := 0 % 256, r := 255 % 256 } ∧
      s1.screenbuffer[0 * H_RES + 640]? =
        some { a := 255, b := 0 % 256, g := 0 % 256, r := 255 % 256 } :=
  ⟨start_screenbuffer_length H_RES V_RES offRasterHw idleEnv initTrace, by decide,
   (accumulator_unchecked_write Unit H_RES V_RES offRasterHw idleEnv
      (start H_RES V_RES offRasterHw idleEnv initTrace)
      { sx_out := 640, sy_out := 0, de_out := 1, r_out := 255, g_out := 0, b_out := 0 }
      (start_screenbuffer_length H_RES V_RES offRasterHw idleEnv initTrace) rfl
      (by decide)).1 (by decide)⟩

/-! ## Frame boundary and frame counter -/

/-- C6. Frame boundary detection and frame counting. A cycle is a frame
boundary exactly when, after its clock step, `sy_out = V_RES` and
`sx_out = 0`, a test on the model's current outputs only; the event poll runs
exactly in boundary cycles. In every completed iteration the frame counter
goes up by exactly one (within the range of the `uint64_t` counter), together
with one more presentation, when the iteration is a boundary cycle that
presents the frame, and both are unchanged otherwise. After any number of
iterations from reset at most that many frames were presented, and
`frame_count` equals the number of presentations performed on every run within
the counter's range: every run of fewer than `2 ^ 64` iterations, and every
run that presented fewer than `2 ^ 64` frames. -/
theorem frame_boundary_counting :
    (∀ (vres : Nat) (o : Outputs),
      atBoundary vres o = true ↔ (o.sy_out = vres ∧ o.sx_out = 0)) ∧
    (∀ (σ : Type) (hres vres : Nat) (hw : Hardware σ) (env : Env) (s s1 : Sim σ),
      (cycle hres vres hw env s).state? = some s1 →
      ((atBoundary vres (hw.out (clockCycle hw s).core) = true ∧ s1.polls = s.polls + 1) ∨
        (atBoundary vres (hw.out (clockCycle hw s).core) = false ∧ s1.polls = s.polls)) ∧
      ((atBoundary vres (hw.out (clockCycle hw s).core) = true ∧
          cycle hres vres hw env s = LoopResult.next s1 ∧
          s1.frame_count = (s.frame_count + 1) % 2 ^ 64 ∧
          (s.frame_count + 1 < 2 ^ 64 → s1.frame_count = s.frame_count + 1) ∧
          presentations s1.trace = presentations s.trace + 1) ∨
        (¬ (atBoundary vres (hw.out (clockCycle hw s).core) = true ∧
            cycle hres vres hw env s = LoopResult.next s1) ∧
          s1.frame_count = s.frame_count ∧
          presentations s1.trace = presentations s.trace))) ∧
    (∀ (σ : Type) (hres vres : Nat) (hw : Hardware σ) (env : Env) (fuel : Nat) (s : Sim σ),
      (runLoop hres vres hw env fuel (start hres vres hw env initTrace)).state? = some s →
      presentations s.trace ≤ fuel ∧
      s.frame_count = presentations s.trace % 2 ^ 64 ∧
      (presentations s.trace < 2 ^ 64 → s.frame_count = presentations s.trace) ∧
      (fuel < 2 ^ 64 → s.frame_count = presentations s.trace)) := by
  refine ⟨?_, ?_, ?_⟩
  · intro vres o
    simp [atBoundary]
  · intro σ hres vres hw env s s1 h
    refine ⟨?_, ?_⟩
    · rcases cycle_effect hres vres hw env s s1 h with
        ⟨hb, -, -, -, -, -, hp⟩ | ⟨hb, -, -, -, -, -, -, hp⟩ | ⟨hb, -, -, -, -, -, -, hp⟩
      · exact Or.inr ⟨hb, hp⟩
      · exact Or.inl ⟨hb, hp⟩
      · exact Or.inl ⟨hb, hp⟩
    · rcases cycle_frame_count hres vres hw env s s1 h with ⟨hb, hc, hf, hp⟩ | hrest
      · exact Or.inl ⟨hb, hc, hf, fun hlt => hf.trans (Nat.mod_eq_of_lt hlt), hp⟩
      · exact Or.inr hrest
  · intro σ hres vres hw env fuel s h
    have hinv : s.frame_count = presentations s.trace % 2 ^ 64 := by
      refine runLoop_invariant hres vres hw env
        (fun s => s.frame_count = presentations s.trace % 2 ^ 64) ?_ fuel _ s ?_ h
      · intro s s1 hs h1
        rcases cycle_frame_count hres vres hw env s s1 h1 with
          ⟨-, -, hf, hp⟩ | ⟨-, hf, hp⟩
        · simp only [hf, hp, hs]
          exact Nat.mod_add_mod _ _ _
        · simp only [hf, hp, hs]
      · simp only [start_trace]
        rfl
    have hle : presentations s.trace ≤ fuel := by
      have h1 := runLoop_presentations_le hres vres hw env fuel _ s h
      have h0 : presentations (start hres vres hw env initTrace).trace = 0 := by
        simp only [start_trace]
        rfl
      omega
    exact ⟨hle, hinv, fun hlt => hinv.trans (Nat.mod_eq_of_lt hlt),
      fun hlt => hinv.trans (Nat.mod_eq_of_lt (by omega))⟩

/-- C6 at a concrete input: after the first iteration against the
always-blanking model one frame has been presented and counted. -/
theorem frame_boundary_counting_witness :
    (runLoop H_RES V_RES blankHw idleEnv 1 (start H_RES V_RES blankHw idleEnv initTrace)).state?
      = some (present (pollEvent idleEnv
          (clockCycle blankHw (start H_RES V_RES blankHw idleEnv initTrace))).2) ∧
    presentations (present (pollEvent idleEnv
        (clockCycle blankHw (start H_RES V_RES blankHw idleEnv initTrace))).2).trace = 1 ∧
    (present (pollEvent idleEnv
        (clockCycle blankHw (start H_RES V_RES blankHw idleEnv initTrace))).2).frame_count =
      presentations (present (pollEvent idleEnv
        (clockCycle blankHw (start H_RES V_RES blankHw idleEnv initTrace))).2).trace :=
  ⟨by rw [runLoop_succ,
        cycle_present H_RES V_RES blankHw idleEnv _ (by rfl) (by rfl) (by decide) (by decide)]
      rfl,
   by decide,
   (frame_boundary_counting.2.2 Unit H_RES V_RES blankHw idleEnv 1 _
      (by rw [runLoop_succ,
            cycle_present H_RES V_RES blankHw idleEnv _ (by rfl) (by rfl) (by decide) (by decide)]
          rfl)).2.2.2 (by decide)⟩

/-! ## Quit -/

/-- C7 as stated fails. With two other events (say mouse motion) and then the
window-close event queued before the first frame boundary, and the model at a
boundary in every cycle, the quit event is pending at the first boundary, the
loop is still running after two boundaries with the quit event still in the
queue, and it only leaves at the third. -/
theorem quit_latency_counterexample :
    EventType.SDL_QUIT ∈
      (start H_RES V_RES blankHw (busyQuitEnv 2) initTrace).queue ++
        ((busyQuitEnv 2).pump (start H_RES V_RES blankHw (busyQuitEnv 2) initTrace).polls).1 ∧
    (∃ s2, runLoop H_RES V_RES blankHw (busyQuitEnv 2) 2
        (start H_RES V_RES blankHw (busyQuitEnv 2) initTrace) = Run.running s2 ∧
      s2.polls = 2 ∧ s2.queue = [EventType.SDL_QUIT]) ∧
    ∃ s3, runLoop H_RES V_RES blankHw (busyQuitEnv 2) 3
        (start H_RES V_RES blankHw (busyQuitEnv 2) initTrace) = Run.exited s3 := by
  refine ⟨by decide,
    ⟨present (pollEvent (busyQuitEnv 2) (clockCycle blankHw
      (present (pollEvent (busyQuitEnv 2) (clockCycle blankHw
        (start H_RES V_RES blankHw (busyQuitEnv 2) initTrace))).2))).2, ?_, ?_, ?_⟩, ?_⟩
  · rw [runLoop_succ,
      cycle_present H_RES V_RES blankHw (busyQuitEnv 2) _ (by rfl) (by rfl) (by decide)
        (by decide)]
    simp only []
    rw [runLoop_succ,
      cycle_present H_RES V_RES blankHw (busyQuitEnv 2) _ (by rfl) (by rfl) (by decide)
        (by decide)]
    rfl
  · decide
  · decide
  · exact (blank_quit_run (busyQuitEnv 2) (busyQuitEnv_Q 2) 2
      (start H_RES V_RES blankHw (busyQuitEnv 2) initTrace)
      (fun p hp => busyQuitEnv_silent 2 p (by omega))
      (by decide)).2

/-- C7, amended. The loop leaves only in a frame-boundary cycle, and it does
so exactly when the one event polled there, the head of the event queue, is
the quit event, or Q is held; a boundary cycle removes just the head of the
queue and a mid-frame cycle leaves the queue alone. So a quit event with `k`
other events queued ahead of it is acted on at the `(k + 1)`-th boundary:
against the always-blanking model the loop is still running after `k`
boundaries and is left in iteration `k + 1`. -/
theorem quit_acted_on_at_head :
    (∀ (σ : Type) (hres vres : Nat) (hw : Hardware σ) (env : Env) (s s1 : Sim σ),
      cycle hres vres hw env s = LoopResult.brk s1 →
      atBoundary vres (hw.out (clockCycle hw s).core) = true ∧ quitSeen env s.queue s.polls) ∧
    (∀ (σ : Type) (hres vres : Nat) (hw : Hardware σ) (env : Env) (s : Sim σ),
      accumulate hres s.screenbuffer (hw.out (clockCycle hw s).core) ≠ none →
      atBoundary vres (hw.out (clockCycle hw s).core) = true →
      quitSeen env s.queue s.polls →
      (cycle hres vres hw env s).isBrk = true) ∧
    (∀ (σ : Type) (hres vres : Nat) (hw : Hardware σ) (env : Env) (s s1 : Sim σ),
      (cycle hres vres hw env s).state? = some s1 →
      (atBoundary vres (hw.out (clockCycle hw s).core) = true →
        s1.queue = (s.queue ++ (env.pump s.polls).1).tail) ∧
      (atBoundary vres (hw.out (clockCycle hw s).core) = false → s1.queue = s.queue)) ∧
    (∀ k : Nat,
      (∃ s1, runLoop H_RES V_RES blankHw (busyQuitEnv k) k
          (start H_RES V_RES blankHw (busyQuitEnv k) initTrace) = Run.running s1 ∧
        s1.polls = k) ∧
      ∃ s2, runLoop H_RES V_RES blankHw (busyQuitEnv k) (k + 1)
          (start H_RES V_RES blankHw (busyQuitEnv k) initTrace) = Run.exited s2) := by
  refine ⟨?_, ?_, ?_, ?_⟩
  · intro σ hres vres hw env s s1 h
    rcases cycle_effect hres vres hw env s s1 (by rw [h]; rfl) with
      ⟨-, hc, -⟩ | ⟨hb, hq, -⟩ | ⟨-, -, hc, -⟩
    · rw [hc] at h; cases h
    · exact ⟨hb, hq⟩
    · rw [hc] at h; cases h
  · intro σ hres vres hw env s hacc hb hq
    rcases cycle_cases hres vres hw env s with
      ⟨hn, -⟩ | ⟨buf, -, hb1, -⟩ | ⟨buf, -, -, -, hc⟩ | ⟨buf, -, -, hq1, -⟩
    · exact absurd hn hacc
    · rw [hb] at hb1; cases hb1
    · rw [hc]; rfl
    · exact absurd hq hq1
  · intro σ hres vres hw env s s1 h
    rcases cycle_effect hres vres hw env s s1 h with
      ⟨hb, -, -, -, -, hq, -⟩ | ⟨hb, -, -, -, -, -, hq, -⟩ | ⟨hb, -, -, -, -, -, hq, -⟩
    · exact ⟨fun h1 => (by rw [hb] at h1; cases h1), fun _ => hq⟩
    · exact ⟨fun _ => hq, fun h1 => (by rw [hb] at h1; cases h1)⟩
    · exact ⟨fun _ => hq, fun h1 => (by rw [hb] at h1; cases h1)⟩
  · intro k
    obtain ⟨⟨s1, hrun, hp⟩, hex⟩ := blank_quit_run (busyQuitEnv k) (busyQuitEnv_Q k) k
      (start H_RES V_RES blankHw (busyQuitEnv k) initTrace)
      (fun p hp => busyQuitEnv_silent k p (by omega))
      (by
        have h0 : (start H_RES V_RES blankHw (busyQuitEnv k) initTrace).polls = 0 := rfl
        have h1 : (start H_RES V_RES blankHw (busyQuitEnv k) initTrace).queue = [] := rfl
        rw [h0, h1, busyQuitEnv_first]; rfl)
    refine ⟨⟨s1, hrun, ?_⟩, hex⟩
    rw [hp]
    show 0 + k = k
    omega

/-- C7 amended, at a concrete input: with the window-close event at the head
of the queue at the first boundary, the first iteration leaves the loop. -/
theorem quit_acted_on_at_head_witness :
    accumulate H_RES (start H_RES V_RES blankHw quitEnv initTrace).screenbuffer
      (blankHw.out (clockCycle blankHw (start H_RES V_RES blankHw quitEnv initTrace)).core)
      ≠ none ∧
    atBoundary V_RES
      (blankHw.out (clockCycle blankHw (start H_RES V_RES blankHw quitEnv initTrace)).core)
      = true ∧
    quitSeen quitEnv (start H_RES V_RES blankHw quitEnv initTrace).queue
      (start H_RES V_RES blankHw quitEnv initTrace).polls ∧
    (cycle H_RES V_RES blankHw quitEnv (start H_RES V_RES blankHw quitEnv initTrace)).isBrk
      = true :=
  ⟨by rw [accumulate_de_low _ _ _ rfl]; exact Option.some_ne_none _, by rfl, by decide,
   quit_acted_on_at_head.2.1 Unit H_RES V_RES blankHw quitEnv
     (start H_RES V_RES blankHw quitEnv initTrace)
     (by rw [accumulate_de_low _ _ _ rfl]; exact Option.some_ne_none _) (by rfl) (by decide)⟩

/-! ## Throughput Reporter -/

/-- The 64-bit difference of two tick counts in increasing order is their
difference. -/
theorem ticks_sub (start_ticks end_ticks : Nat) (h : start_ticks < end_ticks)
    (h64 : end_ticks < 2 ^ 64) :
    (end_ticks + 2 ^ 64 - start_ticks) % 2 ^ 64 = end_ticks - start_ticks := by
  have h1 : end_ticks + 2 ^ 64 - start_ticks = (end_ticks - start_ticks) + 2 ^ 64 := by omega
  rw [h1, Nat.add_mod_right]
  exact Nat.mod_eq_of_lt (by omega)

/-! ### Rounding to binary64 -/

theorem int_log_two_eq (q : ℚ) (e : ℤ) (h1 : (2 : ℚ) ^ e ≤ q) (h2 : q < (2 : ℚ) ^ (e + 1)) :
    Int.log 2 q = e := by
  have hq : 0 < q := lt_of_lt_of_le (zpow_pos (by norm_num) e) h1
  have a1 : e ≤ Int.log 2 q := by
    rw [← Int.zpow_le_iff_le_log (by norm_num) hq]
    simpa using h1
  have a2 : Int.log 2 q < e + 1 := by
    rw [← Int.lt_zpow_iff_log_lt (by norm_num) hq]
    simpa using h2
  omega

theorem roundEven_floor_le (x : ℚ) : ⌊x⌋ ≤ roundEven x := by
  unfold roundEven
  split
  · exact le_refl _
  · split
    · omega
    · split <;> omega

theorem roundEven_le_floor_succ (x : ℚ) : roundEven x ≤ ⌊x⌋ + 1 := by
  unfold roundEven
  split
  · omega
  · split
    · omega
    · split <;> omega

theorem roundEven_sub_le (x : ℚ) : |(roundEven x : ℚ) - x| ≤ 1 / 2 := by
  have hf1 : (⌊x⌋ : ℚ) ≤ x := Int.floor_le x
  have hf2 : x < ⌊x⌋ + 1 := Int.lt_floor_add_one x
  unfold roundEven
  rw [abs_le]
  split
  · constructor <;> linarith
  · split
    · push_cast; constructor <;> linarith
    · have heq : x - ⌊x⌋ = 1 / 2 := by
        rename_i h1 h2
        push_neg at h1 h2
        linarith
      split
      · constructor <;> linarith
      · push_cast; constructor <;> linarith

theorem roundEven_intCast (k : ℤ) : roundEven (k : ℚ) = k := by
  unfold roundEven
  simp

theorem ulpExp_eq (q : ℚ) (e : ℤ) (h1 : (2 : ℚ) ^ e ≤ q) (h2 : q < (2 : ℚ) ^ (e + 1))
    (he : -1022 ≤ e) : ulpExp q = e - 52 := by
  unfold ulpExp
  rw [int_log_two_eq q e h1 h2]
  omega

/-- The significand of `q` in its binade lies in `[2 ^ 52, 2 ^ 53)`. -/
theorem significand_bounds (q : ℚ) (e : ℤ) (h1 : (2 : ℚ) ^ e ≤ q) (h2 : q < (2 : ℚ) ^ (e + 1)) :
    (2 : ℚ) ^ (52 : ℕ) ≤ q / 2 ^ (e - 52) ∧ q / 2 ^ (e - 52) < (2 : ℚ) ^ (53 : ℕ) := by
  have hu : (0 : ℚ) < 2 ^ (e - 52) := zpow_pos (by norm_num) _
  have e1 : (2 : ℚ) ^ e = 2 ^ (52 : ℕ) * 2 ^ (e - 52) := by
    rw [← zpow_natCast, ← zpow_add₀ (by norm_num)]
    congr 1; omega
  have e2 : (2 : ℚ) ^ (e + 1) = 2 ^ (53 : ℕ) * 2 ^ (e - 52) := by
    rw [← zpow_natCast, ← zpow_add₀ (by norm_num)]
    congr 1; omega
  constructor
  · rw [le_div_iff₀ hu, ← e1]; exact h1
  · rw [div_lt_iff₀ hu, ← e2]; exact h2

theorem roundEven_significand (q : ℚ) (e : ℤ) (h1 : (2 : ℚ) ^ e ≤ q)
    (h2 : q < (2 : ℚ) ^ (e + 1)) :
    (2 : ℤ) ^ (52 : ℕ) ≤ roundEven (q / 2 ^ (e - 52)) ∧
      roundEven (q / 2 ^ (e - 52)) ≤ (2 : ℤ) ^ (53 : ℕ) := by
  obtain ⟨m1, m2⟩ := significand_bounds q e h1 h2
  have f1 : (2 : ℤ) ^ (52 : ℕ) ≤ ⌊q / 2 ^ (e - 52)⌋ := by
    rw [Int.le_floor]; push_cast; exact m1
  have f2 : ⌊q / 2 ^ (e - 52)⌋ < (2 : ℤ) ^ (53 : ℕ) := by
    rw [Int.floor_lt]; push_cast; exact m2
  have r1 := roundEven_floor_le (q / 2 ^ (e - 52))
  have r2 := roundEven_le_floor_succ (q / 2 ^ (e - 52))
  constructor <;> omega

/-- Inside the normal range rounding does not overflow: the result is the
rounded significand times the unit in the last place. -/
theorem round_eq (q : ℚ) (e : ℤ) (h1 : (2 : ℚ) ^ e ≤ q) (h2 : q < (2 : ℚ) ^ (e + 1))
    (he : -1022 ≤ e) (he2 : e ≤ 1022) :
    F64.round q = F64.fin ((roundEven (q / 2 ^ (e - 52)) : ℚ) * 2 ^ (e - 52)) := by
  have hq : 0 < q := lt_of_lt_of_le (zpow_pos (by norm_num) e) h1
  have hu : (0 : ℚ) < 2 ^ (e - 52) := zpow_pos (by norm_num) _
  obtain ⟨-, k2⟩ := roundEven_significand q e h1 h2
  have k2q : (roundEven (q / 2 ^ (e - 52)) : ℚ) ≤ 2 ^ (53 : ℕ) := by exact_mod_cast k2
  have hv : (roundEven (q / 2 ^ (e - 52)) : ℚ) * 2 ^ (e - 52) < 2 ^ (1024 : ℕ) := by
    calc (roundEven (q / 2 ^ (e - 52)) : ℚ) * 2 ^ (e - 52)
        ≤ 2 ^ (53 : ℕ) * 2 ^ (e - 52) := mul_le_mul_of_nonneg_right k2q hu.le
      _ = 2 ^ (e + 1) := by
          rw [← zpow_natCast, ← zpow_add₀ (by norm_num)]
          congr 1; omega
      _ ≤ 2 ^ (1023 : ℤ) := zpow_le_zpow_right₀ (by norm_num) (by omega)
      _ < 2 ^ (1024 : ℕ) := by
          rw [← zpow_natCast]
          exact zpow_lt_zpow_right₀ (by norm_num) (by norm_num)
  unfold F64.round
  rw [ulpExp_eq q e h1 h2 he, if_neg hq.ne', if_neg (not_le.mpr hv)]

/-- Inside the normal range the rounded value is within relative error
`2 ^ (-53)` of the argument. -/
theorem round_near (q : ℚ) (hlo : (2 : ℚ) ^ (-1022 : ℤ) ≤ q) (hhi : q < (2 : ℚ) ^ (1023 : ℤ)) :
    ∃ v, F64.round q = F64.fin v ∧
      (1 - 1 / 2 ^ (53 : ℕ)) * q ≤ v ∧ v ≤ (1 + 1 / 2 ^ (53 : ℕ)) * q := by
  have hq : 0 < q := lt_of_lt_of_le (zpow_pos (by norm_num) _) hlo
  have h1 : (2 : ℚ) ^ Int.log 2 q ≤ q := by
    simpa using Int.zpow_log_le_self (b := 2) (by norm_num) hq
  have h2 : q < (2 : ℚ) ^ (Int.log 2 q + 1) := by
    simpa using Int.lt_zpow_succ_log_self (b := 2) (by norm_num) q
  have he : -1022 ≤ Int.log 2 q := by
    rw [← Int.zpow_le_iff_le_log (by norm_num) hq]
    simpa using hlo
  have he2 : Int.log 2 q < 1023 := by
    rw [← Int.lt_zpow_iff_log_lt (by norm_num) hq]
    simpa using hhi
  refine ⟨_, round_eq q _ h1 h2 he (by omega), ?_⟩
  generalize Int.log 2 q = e at h1 h2
  have hu : (0 : ℚ) < 2 ^ (e - 52) := zpow_pos (by norm_num) _
  obtain ⟨m1, -⟩ := significand_bounds q e h1 h2
  have hr := abs_le.mp (roundEven_sub_le (q / 2 ^ (e - 52)))
  have hue : (2 : ℚ) ^ (52 : ℕ) * 2 ^ (e - 52) ≤ q := by
    rwa [le_div_iff₀ hu] at m1
  have hqu : q / 2 ^ (e - 52) * 2 ^ (e - 52) = q := div_mul_cancel₀ q hu.ne'
  have hlow : q - 2 ^ (e - 52) / 2 ≤ (roundEven (q / 2 ^ (e - 52)) : ℚ) * 2 ^ (e - 52) := by
    have := mul_le_mul_of_nonneg_right hr.1 hu.le
    rw [sub_mul, hqu] at this
    linarith
  have hup : (roundEven (q / 2 ^ (e - 52)) : ℚ) * 2 ^ (e - 52) ≤ q + 2 ^ (e - 52) / 2 := by
    have := mul_le_mul_of_nonneg_right hr.2 hu.le
    rw [sub_mul, hqu] at this
    linarith
  have hhalf : (2 : ℚ) ^ (e - 52) / 2 ≤ 1 / 2 ^ (53 : ℕ) * q := by
    have : (2 : ℚ) ^ (e - 52) ≤ q / 2 ^ (52 : ℕ) := by
      rw [le_div_iff₀ (by positivity)]
      linarith
    have h53 : (1 : ℚ) / 2 ^ (53 : ℕ) * q = q / 2 ^ (52 : ℕ) / 2 := by
      norm_num
      ring
    rw [h53]
    linarith
  constructor <;> linarith

theorem round_zero : F64.round 0 = F64.fin 0 := by
  unfold F64.round
  simp

/-- Doubling a value of the normal range doubles its rounding. -/
theorem round_two_mul (q : ℚ) (hlo : (2 : ℚ) ^ (-1022 : ℤ) ≤ q) (hhi : q < (2 : ℚ) ^ (1022 : ℤ)) :
    ∃ v, 0 < v ∧ F64.round q = F64.fin v ∧ F64.round (2 * q) = F64.fin (2 * v) := by
  have hq : 0 < q := lt_of_lt_of_le (zpow_pos (by norm_num) _) hlo
  have h1 : (2 : ℚ) ^ Int.log 2 q ≤ q := by
    simpa using Int.zpow_log_le_self (b := 2) (by norm_num) hq
  have h2 : q < (2 : ℚ) ^ (Int.log 2 q + 1) := by
    simpa using Int.lt_zpow_succ_log_self (b := 2) (by norm_num) q
  have he : -1022 ≤ Int.log 2 q := by
    rw [← Int.zpow_le_iff_le_log (by norm_num) hq]
    simpa using hlo
  have he2 : Int.log 2 q < 1022 := by
    rw [← Int.lt_zpow_iff_log_lt (by norm_num) hq]
    simpa using hhi
  generalize Int.log 2 q = e at h1 h2 he he2
  have hu : (0 : ℚ) < 2 ^ (e - 52) := zpow_pos (by norm_num) _
  have hpow : ∀ z : ℤ, (2 : ℚ) ^ (z + 1) = 2 * 2 ^ z := fun z => by
    rw [zpow_add₀ (by norm_num), zpow_one, mul_comm]
  have d1 : (2 : ℚ) ^ (e + 1) ≤ 2 * q := by rw [hpow]; linarith
  have d2 : 2 * q < (2 : ℚ) ^ (e + 1 + 1) := by rw [hpow (e + 1), hpow e]; rw [hpow e] at h2; linarith
  have hk := (roundEven_significand q e h1 h2).1
  have hkq : (2 : ℚ) ^ (52 : ℕ) ≤ (roundEven (q / 2 ^ (e - 52)) : ℚ) := by exact_mod_cast hk
  refine ⟨(roundEven (q / 2 ^ (e - 52)) : ℚ) * 2 ^ (e - 52), ?_, round_eq q e h1 h2 he (by omega),
    ?_⟩
  · exact mul_pos (lt_of_lt_of_le (by positivity) hkq) hu
  · rw [round_eq (2 * q) (e + 1) d1 d2 (by omega) (by omega)]
    have hexp : e + 1 - 52 = (e - 52) + 1 := by omega
    rw [hexp, hpow (e - 52)]
    have hm : 2 * q / (2 * 2 ^ (e - 52)) = q / 2 ^ (e - 52) := by
      rw [mul_div_mul_left _ _ (by norm_num : (2 : ℚ) ≠ 0)]
    rw [hm]
    congr 1
    ring

/-- A value that is a 53-bit significand times a power of two in the normal
range is its own rounding. -/
theorem round_exact (k : ℤ) (e : ℤ) (hk1 : (2 : ℤ) ^ (52 : ℕ) ≤ k) (hk2 : k < (2 : ℤ) ^ (53 : ℕ))
    (he : -1022 ≤ e) (he2 : e ≤ 1022) :
    F64.round ((k : ℚ) * 2 ^ (e - 52)) = F64.fin ((k : ℚ) * 2 ^ (e - 52)) := by
  have hu : (0 : ℚ) < 2 ^ (e - 52) := zpow_pos (by norm_num) _
  have hk1q : (2 : ℚ) ^ (52 : ℕ) ≤ (k : ℚ) := by exact_mod_cast hk1
  have hk2q : (k : ℚ) < (2 : ℚ) ^ (53 : ℕ) := by exact_mod_cast hk2
  have h1 : (2 : ℚ) ^ e ≤ (k : ℚ) * 2 ^ (e - 52) := by
    have e1 : (2 : ℚ) ^ e = 2 ^ (52 : ℕ) * 2 ^ (e - 52) := by
      rw [← zpow_natCast, ← zpow_add₀ (by norm_num)]
      congr 1; omega
    rw [e1]
    exact mul_le_mul_of_nonneg_right hk1q hu.le
  have h2 : (k : ℚ) * 2 ^ (e - 52) < (2 : ℚ) ^ (e + 1) := by
    have e2 : (2 : ℚ) ^ (e + 1) = 2 ^ (53 : ℕ) * 2 ^ (e - 52) := by
      rw [← zpow_natCast, ← zpow_add₀ (by norm_num)]
      congr 1; omega
    rw [e2]
    exact mul_lt_mul_of_pos_right hk2q hu
  rw [round_eq _ e h1 h2 he he2, mul_div_cancel_right₀ _ hu.ne', roundEven_intCast]

theorem two_zpow_lo : (2 : ℚ) ^ (-1022 : ℤ) = 1 / 2 ^ (1022 : ℕ) := by
  rw [zpow_neg, one_div, ← zpow_natCast]
  rfl

theorem two_zpow_hi : (2 : ℚ) ^ (1023 : ℤ) = 2 ^ (1023 : ℕ) := by
  rw [← zpow_natCast]
  rfl

/-- Conversion of a positive 64-bit integer: finite, within relative error
`2 ^ (-53)`. -/
theorem ofNat_near (n : ℕ) (h0 : 0 < n) (h64 : n < 2 ^ 64) :
    ∃ v, F64.ofNat n = F64.fin v ∧
      (1 - 1 / 2 ^ (53 : ℕ)) * (n : ℚ) ≤ v ∧ v ≤ (1 + 1 / 2 ^ (53 : ℕ)) * (n : ℚ) := by
  have h1 : (1 : ℚ) ≤ n := by exact_mod_cast h0
  have h2 : (n : ℚ) < 2 ^ (64 : ℕ) := by exact_mod_cast h64
  refine round_near (n : ℚ) (le_trans ?_ h1) (lt_trans h2 ?_)
  · exact zpow_le_one_of_nonpos₀ (by norm_num) (by norm_num)
  · rw [← zpow_natCast]
    exact zpow_lt_zpow_right₀ (by norm_num) (by norm_num)

/-- Quotient of two approximated positive quantities. -/
theorem div_near (a a1 b b1 L1 U1 L2 U2 : ℚ) (ha : 0 ≤ a) (hb : 0 < b) (hL1 : 0 ≤ L1)
    (hL2 : 0 < L2) (h1 : L1 * a ≤ a1 ∧ a1 ≤ U1 * a) (h2 : L2 * b ≤ b1 ∧ b1 ≤ U2 * b) :
    (L1 / U2) * (a / b) ≤ a1 / b1 ∧ a1 / b1 ≤ (U1 / L2) * (a / b) := by
  have hb1 : 0 < b1 := lt_of_lt_of_le (mul_pos hL2 hb) h2.1
  have hU2b : 0 < U2 * b := lt_of_lt_of_le hb1 h2.2
  have ha1 : 0 ≤ a1 := le_trans (mul_nonneg hL1 ha) h1.1
  constructor
  · have e1 : L1 / U2 * (a / b) = (L1 * a) / (U2 * b) := by
      rw [div_mul_div_comm]
    rw [e1]
    exact div_le_div₀ ha1 h1.1 hb1 h2.2
  · have e1 : U1 / L2 * (a / b) = (U1 * a) / (L2 * b) := by
      rw [div_mul_div_comm]
    rw [e1]
    exact div_le_div₀ (le_trans ha1 h1.2) h1.2 (mul_pos hL2 hb) h2.1

/-- The rate computed by lines 121-123 for tick counts in increasing order
and a positive frequency: a finite `double` within relative error `2 ^ (-50)`
of the exact quotient. -/
theorem fps_near (st en fr n : ℕ) (h : st < en) (h64 : en < 2 ^ 64) (hf : 0 < fr)
    (hf64 : fr < 2 ^ 64) (hn : n < 2 ^ 64) :
    ∃ v, fps st en fr n = F64.fin v ∧
      (1 - 1 / 2 ^ (50 : ℕ)) * ((n : ℚ) / (((en : ℚ) - (st : ℚ)) / (fr : ℚ))) ≤ v ∧
      v ≤ (1 + 1 / 2 ^ (50 : ℕ)) * ((n : ℚ) / (((en : ℚ) - (st : ℚ)) / (fr : ℚ))) := by
  have ht0 : 0 < en - st := by omega
  have ht64 : en - st < 2 ^ 64 := by omega
  have hcast : ((en - st : ℕ) : ℚ) = (en : ℚ) - (st : ℚ) := Nat.cast_sub (Nat.le_of_lt h)
  unfold fps
  simp only [ticks_sub st en h h64]
  rw [← hcast]
  generalize en - st = t at ht0 ht64
  obtain ⟨t1, ht1, htl, htu⟩ := ofNat_near t ht0 ht64
  obtain ⟨f1, hf1, hfl, hfu⟩ := ofNat_near fr hf hf64
  have htq : (1 : ℚ) ≤ t := by exact_mod_cast ht0
  have hfq : (1 : ℚ) ≤ fr := by exact_mod_cast hf
  have htq2 : (t : ℚ) < 2 ^ (64 : ℕ) := by exact_mod_cast ht64
  have hfq2 : (fr : ℚ) < 2 ^ (64 : ℕ) := by exact_mod_cast hf64
  have hnq2 : (n : ℚ) < 2 ^ (64 : ℕ) := by exact_mod_cast hn
  have hf1pos : 0 < f1 := by
    refine lt_of_lt_of_le ?_ hfl
    exact mul_pos (by norm_num) (by linarith)
  -- the duration
  have hx := div_near (t : ℚ) t1 (fr : ℚ) f1 _ _ _ _ (by linarith) (by linarith)
    (by norm_num) (by norm_num) ⟨htl, htu⟩ ⟨hfl, hfu⟩
  have htf0 : 0 < (t : ℚ) / fr := div_pos (by linarith) (by linarith)
  have htf1 : (1 : ℚ) / 2 ^ (64 : ℕ) ≤ (t : ℚ) / fr :=
    div_le_div₀ (by linarith) htq (by linarith) hfq2.le
  have htf2 : (t : ℚ) / fr ≤ 2 ^ (64 : ℕ) := by
    have := div_le_div₀ (by positivity : (0 : ℚ) ≤ 2 ^ (64 : ℕ)) htq2.le one_pos hfq
    rwa [div_one] at this
  obtain ⟨d, hd, hdl, hdu⟩ := round_near (t1 / f1)
    (by
      refine le_trans ?_ (le_trans (mul_le_mul_of_nonneg_left htf1 (by norm_num)) hx.1)
      rw [two_zpow_lo]
      norm_num)
    (by
      refine lt_of_le_of_lt (le_trans hx.2 (mul_le_mul_of_nonneg_left htf2 (by norm_num))) ?_
      rw [two_zpow_hi]
      norm_num)
  have hd2 : (1 - 1 / 2 ^ (53 : ℕ)) * ((1 - 1 / 2 ^ (53 : ℕ)) / (1 + 1 / 2 ^ (53 : ℕ))) *
      ((t : ℚ) / fr) ≤ d ∧
      d ≤ (1 + 1 / 2 ^ (53 : ℕ)) * ((1 + 1 / 2 ^ (53 : ℕ)) / (1 - 1 / 2 ^ (53 : ℕ))) *
        ((t : ℚ) / fr) := by
    constructor
    · refine le_trans ?_ hdl
      rw [mul_assoc]
      exact mul_le_mul_of_nonneg_left hx.1 (by norm_num)
    · refine le_trans hdu ?_
      rw [mul_assoc]
      exact mul_le_mul_of_nonneg_left hx.2 (by norm_num)
  have hdpos : 0 < d := by
    refine lt_of_lt_of_le ?_ hd2.1
    exact mul_pos (by norm_num) htf0
  have hdur : F64.div (F64.ofNat t) (F64.ofNat fr) = F64.fin d := by
    rw [ht1, hf1]
    simp only [F64.div, if_neg hf1pos.ne']
    exact hd
  rw [hdur]
  rcases Nat.eq_zero_or_pos n with hn0 | hn0
  · subst hn0
    refine ⟨0, ?_, by simp, by simp⟩
    have h0 : F64.ofNat 0 = F64.fin 0 := by
      unfold F64.ofNat
      rw [Nat.cast_zero, round_zero]
    rw [h0]
    simp only [F64.div, if_neg hdpos.ne', zero_div]
    exact round_zero
  · obtain ⟨n1, hn1, hnl, hnu⟩ := ofNat_near n hn0 hn
    have hnq : (1 : ℚ) ≤ n := by exact_mod_cast hn0
    have hy := div_near (n : ℚ) n1 ((t : ℚ) / fr) d _ _ _ _ (by linarith) htf0
      (by norm_num) (by norm_num) ⟨hnl, hnu⟩ hd2
    have hX1 : (1 : ℚ) / 2 ^ (64 : ℕ) ≤ (n : ℚ) / ((t : ℚ) / fr) :=
      div_le_div₀ (by linarith) hnq htf0 htf2
    have hX0 : (0 : ℚ) ≤ (n : ℚ) / ((t : ℚ) / fr) := le_trans (by positivity) hX1
    have hX2 : (n : ℚ) / ((t : ℚ) / fr) ≤ 2 ^ (128 : ℕ) := by
      have h1 := div_le_div₀ (by positivity : (0 : ℚ) ≤ 2 ^ (64 : ℕ)) hnq2.le
        (by positivity : (0 : ℚ) < 1 / 2 ^ (64 : ℕ)) htf1
      have h2 : (2 : ℚ) ^ (64 : ℕ) / (1 / 2 ^ (64 : ℕ)) = 2 ^ (128 : ℕ) := by norm_num
      exact le_of_le_of_eq h1 h2
    obtain ⟨v, hv, hvl, hvu⟩ := round_near (n1 / d)
      (by
        refine le_trans ?_ (le_trans (mul_le_mul_of_nonneg_left hX1 (by norm_num)) hy.1)
        rw [two_zpow_lo]
        norm_num)
      (by
        refine lt_of_le_of_lt (le_trans hy.2 (mul_le_mul_of_nonneg_left hX2 (by norm_num))) ?_
        rw [two_zpow_hi]
        norm_num)
    refine ⟨v, ?_, ?_, ?_⟩
    · rw [hn1]
      simp only [F64.div, if_neg hdpos.ne']
      exact hv
    · refine le_trans ?_ (le_trans (mul_le_mul_of_nonneg_left hy.1 (by norm_num)) hvl)
      rw [← mul_assoc]
      refine mul_le_mul_of_nonneg_right ?_ hX0
      norm_num
    · refine le_trans (le_trans hvu (mul_le_mul_of_nonneg_left hy.2 (by norm_num))) ?_
      rw [← mul_assoc]
      refine mul_le_mul_of_nonneg_right ?_ hX0
      norm_num

/-- An unsigned integer below `2 ^ 53` converts without rounding. -/
theorem ofNat_exact (n : ℕ) (h53 : n < 2 ^ 53) : F64.ofNat n = F64.fin (n : ℚ) := by
  unfold F64.ofNat
  rcases Nat.eq_zero_or_pos n with h0 | h0
  · subst h0
    rw [Nat.cast_zero, round_zero]
  · have hlog1 : 2 ^ Nat.log 2 n ≤ n := Nat.pow_log_le_self 2 h0.ne'
    have hlog2 : n < 2 ^ (Nat.log 2 n + 1) := Nat.lt_pow_succ_log_self (by norm_num) n
    have hle : Nat.log 2 n ≤ 52 := by
      have := Nat.log_lt_of_lt_pow h0.ne' h53
      omega
    generalize Nat.log 2 n = e at hlog1 hlog2 hle
    obtain ⟨c, hc⟩ : ∃ c, e + c = 52 := ⟨52 - e, by omega⟩
    have hk1n : 2 ^ 52 ≤ n * 2 ^ c := by
      rw [← hc, pow_add]; exact Nat.mul_le_mul_right _ hlog1
    have hk2n : n * 2 ^ c < 2 ^ 53 := by
      have e1 : 2 ^ 53 = 2 ^ (e + 1) * 2 ^ c := by
        rw [← pow_add]; congr 1; omega
      rw [e1]; exact Nat.mul_lt_mul_of_pos_right hlog2 (by positivity)
    have hk1 : (2 : ℤ) ^ (52 : ℕ) ≤ ((n * 2 ^ c : ℕ) : ℤ) := by exact_mod_cast hk1n
    have hk2 : ((n * 2 ^ c : ℕ) : ℤ) < (2 : ℤ) ^ (53 : ℕ) := by exact_mod_cast hk2n
    have hval : (((n * 2 ^ c : ℕ) : ℤ) : ℚ) * 2 ^ ((e : ℤ) - 52) = (n : ℚ) := by
      have hz : ((e : ℤ) - 52) = -(c : ℤ) := by omega
      rw [hz, zpow_neg, zpow_natCast]
      push_cast
      field_simp
    have key := round_exact ((n * 2 ^ c : ℕ) : ℤ) (e : ℤ) hk1 hk2 (by omega) (by omega)
    rw [hval] at key
    exact key

theorem roundEven_of_lt (x : ℚ) (f : ℤ) (h1 : (f : ℚ) ≤ x) (h2 : x - f < 1 / 2) :
    roundEven x = f := by
  have hf : ⌊x⌋ = f := by
    rw [Int.floor_eq_iff]
    constructor
    · exact h1
    · linarith
  unfold roundEven
  rw [hf, if_pos h2]

/-- An elapsed time of exactly two seconds and 120 frames: the rate is
exactly 60. -/
theorem fps_two_seconds (st en fr : ℕ) (h : st < en) (h64 : en < 2 ^ 64) (hf : 0 < fr)
    (h2 : ((en : ℚ) - (st : ℚ)) / (fr : ℚ) = 2) : fps st en fr 120 = F64.fin 60 := by
  have hfq : (0 : ℚ) < fr := by exact_mod_cast hf
  have hcast : ((en - st : ℕ) : ℚ) = (en : ℚ) - (st : ℚ) := Nat.cast_sub (Nat.le_of_lt h)
  have ht : en - st = 2 * fr := by
    have : ((en - st : ℕ) : ℚ) = ((2 * fr : ℕ) : ℚ) := by
      rw [hcast]
      push_cast
      rw [div_eq_iff hfq.ne'] at h2
      exact h2
    exact_mod_cast this
  have hfr64 : fr < 2 ^ 63 := by omega
  obtain ⟨v, hv0, hv1, hv2⟩ := round_two_mul (fr : ℚ)
    (le_trans (zpow_le_one_of_nonpos₀ (by norm_num) (by norm_num)) (by exact_mod_cast hf))
    (lt_trans (by exact_mod_cast hfr64 : (fr : ℚ) < 2 ^ (63 : ℕ))
      (by rw [← zpow_natCast]; exact zpow_lt_zpow_right₀ (by norm_num) (by norm_num)))
  have e2 : F64.round 2 = F64.fin 2 := by
    have := ofNat_exact 2 (by norm_num)
    simpa [F64.ofNat] using this
  have e60 : F64.round 60 = F64.fin 60 := by
    have := ofNat_exact 60 (by norm_num)
    simpa [F64.ofNat] using this
  have e120 : F64.ofNat 120 = F64.fin 120 := by
    have := ofNat_exact 120 (by norm_num)
    simpa using this
  unfold fps
  simp only [ticks_sub st en h h64, ht]
  have hd : F64.div (F64.ofNat (2 * fr)) (F64.ofNat fr) = F64.fin 2 := by
    unfold F64.ofNat
    rw [hv1, Nat.cast_mul, Nat.cast_ofNat, hv2]
    simp only [F64.div, if_neg hv0.ne']
    rw [mul_div_assoc, div_self hv0.ne', mul_one]
    exact e2
  rw [hd, e120]
  simp only [F64.div]
  rw [if_neg (by norm_num)]
  norm_num
  exact e60

/-- One frame in three seconds: the rate is the `double` nearest to one
third. -/
theorem fps_one_third :
    fps 0 3000 1000 1 = F64.fin (6004799503160661 / 18014398509481984) := by
  have e3000 : F64.ofNat 3000 = F64.fin 3000 := by
    have := ofNat_exact 3000 (by norm_num)
    simpa using this
  have e1000 : F64.ofNat 1000 = F64.fin 1000 := by
    have := ofNat_exact 1000 (by norm_num)
    simpa using this
  have e1 : F64.ofNat 1 = F64.fin 1 := by
    have := ofNat_exact 1 (by norm_num)
    simpa using this
  have e3 : F64.round 3 = F64.fin 3 := by
    have := ofNat_exact 3 (by norm_num)
    simpa [F64.ofNat] using this
  have hthird : F64.round (1 / 3) = F64.fin (6004799503160661 / 18014398509481984) := by
    have hz : (2 : ℚ) ^ ((-2 : ℤ) - 52) = 1 / 18014398509481984 := by
      rw [show ((-2 : ℤ) - 52) = -((54 : ℕ) : ℤ) by norm_num, zpow_neg, zpow_natCast]
      norm_num
    rw [round_eq (1 / 3) (-2) (by rw [zpow_neg]; norm_num) (by rw [show ((-2 : ℤ) + 1) = -1 by norm_num, zpow_neg]; norm_num)
      (by norm_num) (by norm_num), hz]
    rw [roundEven_of_lt _ 6004799503160661 (by norm_num) (by norm_num)]
    norm_num
  unfold fps
  have hsub : (3000 + 2 ^ 64 - 0) % 2 ^ 64 = 3000 := by norm_num
  rw [hsub, e3000, e1000, e1]
  simp only [F64.div]
  rw [if_neg (by norm_num)]
  have h3 : (3000 : ℚ) / 1000 = 3 := by norm_num
  rw [h3, e3]
  simp only []
  rw [if_neg (by norm_num)]
  exact hthird

/-- C8 as stated fails. For one frame in three seconds (ticks 0 and 3000 at
1000 ticks per second) the rate passed to `printf` is the `double` nearest to
one third, `6004799503160661 / 2 ^ 54`, not the rational
`1 / ((3000 - 0) / 1000)`. -/
theorem throughput_rate_counterexample :
    (0 : ℕ) < 3000 ∧ (0 : ℕ) < 1000 ∧
    fps 0 3000 1000 1 = F64.fin (6004799503160661 / 18014398509481984) ∧
    fps 0 3000 1000 1 ≠ F64.fin ((1 : ℚ) / (((3000 : ℚ) - 0) / 1000)) := by
  refine ⟨by norm_num, by norm_num, fps_one_third, ?_⟩
  rw [fps_one_third]
  intro hEq
  injection hEq with hq
  norm_num at hq

/-- C8, amended. Throughput Reporter arithmetic in `double` precision. For
64-bit tick counts `start < end`, a counter frequency above 0 and any 64-bit
frame count `n`, the rate computed by lines 121-123 (difference, frequency and
frame count converted to `double`, two `double` divisions, each step rounded
to nearest) is a finite `double` within relative error `2 ^ (-50)` of
`n / ((end - start) / frequency)`; when the elapsed time
`(end - start) / frequency` is exactly 2 and `n = 120` it is exactly 60; and
it is this value, taken at the two counter readings, the frequency and the
frame counter on leaving the loop, that every run of `main` returning 0 passes
to `printf` just before the teardown. -/
theorem throughput_rate :
    (∀ start_ticks end_ticks frequency n : Nat,
      start_ticks < end_ticks → end_ticks < 2 ^ 64 → 0 < frequency → frequency < 2 ^ 64 →
      n < 2 ^ 64 →
      ∃ v, fps start_ticks end_ticks frequency n = F64.fin v ∧
        (1 - 1 / 2 ^ (50 : ℕ)) *
            ((n : ℚ) / (((end_ticks : ℚ) - (start_ticks : ℚ)) / (frequency : ℚ))) ≤ v ∧
        v ≤ (1 + 1 / 2 ^ (50 : ℕ)) *
            ((n : ℚ) / (((end_ticks : ℚ) - (start_ticks : ℚ)) / (frequency : ℚ)))) ∧
    (∀ start_ticks end_ticks frequency : Nat,
      start_ticks < end_ticks → end_ticks < 2 ^ 64 → 0 < frequency →
      ((end_ticks : ℚ) - (start_ticks : ℚ)) / (frequency : ℚ) = 2 →
      fps start_ticks end_ticks frequency 120 = F64.fin 60) ∧
    (∀ (σ : Type) (hres vres : Nat) (hw : Hardware σ) (env : Env) (fuel : Nat)
      (tr : List Event),
      mainWith hres vres hw env fuel = MainResult.returned 0 tr →
      ∃ s, runLoop hres vres hw env fuel (start hres vres hw env initTrace) = Run.exited s ∧
        tr = s.trace ++ [Event.SDL_GetPerformanceCounter, Event.SDL_GetPerformanceFrequency,
          Event.printf_fps (fps (env.counter 0) (env.counter 1) env.frequency s.frame_count),
          Event.final, Event.SDL_DestroyTexture, Event.SDL_DestroyRenderer,
          Event.SDL_DestroyWindow, Event.SDL_Quit]) := by
  refine ⟨fps_near, fps_two_seconds, ?_⟩
  intro σ hres vres hw env fuel tr h
  by_cases hf : initFails env
  · obtain ⟨tr1, d, hm, -, -⟩ := init_failure_returns hres vres hw env fuel hf
    rw [hm] at h
    injection h with h1 _
    exact absurd h1 (by decide)
  · rw [mainWith_ok hres vres hw env fuel hf] at h
    cases hrun : runLoop hres vres hw env fuel (start hres vres hw env initTrace) with
    | running s => rw [hrun] at h; cases h
    | undef => rw [hrun] at h; cases h
    | exited s =>
      rw [hrun] at h
      injection h with _ h2
      exact ⟨s, rfl, by rw [← h2]; rfl⟩

/-- C8 amended, at a concrete input: 2 000 000 000 ticks at 1 GHz and 120
frames. -/
theorem throughput_rate_witness :
    (5 : Nat) < 2000000005 ∧ (2000000005 : Nat) < 2 ^ 64 ∧ (0 : Nat) < 1000000000 ∧
    (((2000000005 : ℕ) : ℚ) - ((5 : ℕ) : ℚ)) / ((1000000000 : ℕ) : ℚ) = 2 ∧
    fps 5 2000000005 1000000000 120 = F64.fin 60 :=
  ⟨by decide, by decide, by decide, by norm_num,
   throughput_rate.2.1 5 2000000005 1000000000 (by decide) (by decide) (by decide)
     (by norm_num)⟩

/-! ## Exit status and teardown -/

/-- C9. Exit status. If `SDL_Init`, the window, the renderer or the texture
fails, `main` returns 1 right after printing the diagnostic of the first
failure, whatever the fuel, having made no call on the hardware model; a run
of `main` that returns does so with a non-zero status exactly when an
initialisation failed; and when initialisation succeeds and the loop reaches
an iteration that breaks (quit event or Q at a frame boundary), `main`
returns 0. -/
theorem exit_status :
    (∀ (σ : Type) (hres vres : Nat) (hw : Hardware σ) (env : Env) (fuel : Nat),
      initFails env →
      ∃ tr d, mainWith hres vres hw env fuel = MainResult.returned 1 tr ∧
        tr.getLast? = some (Event.printf d) ∧ ∀ e ∈ tr, e.isModel = false) ∧
    (∀ (σ : Type) (hres vres : Nat) (hw : Hardware σ) (env : Env) (fuel : Nat),
      (env.sdl_init < 0 → mainWith hres vres hw env fuel = MainResult.returned 1
        [Event.commandArgs, Event.SDL_Init, Event.printf Diag.sdlInitFailed]) ∧
      (¬ env.sdl_init < 0 → env.window = false →
        mainWith hres vres hw env fuel = MainResult.returned 1
          [Event.commandArgs, Event.SDL_Init, Event.SDL_CreateWindow,
           Event.printf Diag.windowCreationFailed]) ∧
      (¬ env.sdl_init < 0 → env.window = true → env.renderer = false →
        mainWith hres vres hw env fuel = MainResult.returned 1
          [Event.commandArgs, Event.SDL_Init, Event.SDL_CreateWindow, Event.SDL_CreateRenderer,
           Event.printf Diag.rendererCreationFailed]) ∧
      (¬ env.sdl_init < 0 → env.window = true → env.renderer = true → env.texture = false →
        mainWith hres vres hw env fuel = MainResult.returned 1
          [Event.commandArgs, Event.SDL_Init, Event.SDL_CreateWindow, Event.SDL_CreateRenderer,
           Event.SDL_CreateTexture, Event.printf Diag.textureCreationFailed])) ∧
    (∀ (σ : Type) (hres vres : Nat) (hw : Hardware σ) (env : Env) (fuel : Nat) (c : Int),
      (mainWith hres vres hw env fuel).status? = some c → (c ≠ 0 ↔ initFails env)) ∧
    (∀ (σ : Type) (hres vres : Nat) (hw : Hardware σ) (env : Env) (n m : Nat) (s : Sim σ),
      ¬ initFails env →
      runLoop hres vres hw env n (start hres vres hw env initTrace) = Run.running s →
      (cycle hres vres hw env s).isBrk = true → n + 1 ≤ m →
      (mainWith hres vres hw env m).status? = some 0) := by
  have hfail1 : ∀ (σ : Type) (hres vres : Nat) (hw : Hardware σ) (env : Env) (fuel : Nat),
      initFails env →
      ∃ tr d, mainWith hres vres hw env fuel = MainResult.returned 1 tr ∧
        tr.getLast? = some (Event.printf d) ∧ ∀ e ∈ tr, e.isModel = false :=
    fun σ hres vres hw env fuel hf => init_failure_returns hres vres hw env fuel hf
  refine ⟨hfail1, fun σ hres vres hw env fuel => mainWith_init_failure hres vres hw env fuel,
    ?_, ?_⟩
  · intro σ hres vres hw env fuel c hc
    by_cases hf : initFails env
    · obtain ⟨tr, d, hm, -, -⟩ := hfail1 σ hres vres hw env fuel hf
      rw [hm] at hc
      simp only [MainResult.status?, Option.some.injEq] at hc
      subst hc
      simp [hf]
    · rw [mainWith_ok hres vres hw env fuel hf] at hc
      cases hrun : runLoop hres vres hw env fuel (start hres vres hw env initTrace) with
      | running s => rw [hrun] at hc; simp [MainResult.status?] at hc
      | undef => rw [hrun] at hc; simp [MainResult.status?] at hc
      | exited s =>
        rw [hrun] at hc
        simp only [MainResult.status?, Option.some.injEq] at hc
        subst hc
        simp [hf]
  · intro σ hres vres hw env n m s hok hrun hbrk hm
    obtain ⟨s1, -, hmain⟩ := mainWith_returns hres vres hw env n m s hok hrun hbrk hm
    rw [hmain]
    rfl

/-- C9 at concrete inputs: a failed window creation returns 1 without
touching the model, and a window-close event at the first boundary makes
`main` return 0. -/
theorem exit_status_witness :
    (initFails noWindowEnv ∧
      ∃ tr d, main blankHw noWindowEnv 5 = MainResult.returned 1 tr ∧
        tr.getLast? = some (Event.printf d) ∧ ∀ e ∈ tr, e.isModel = false) ∧
    (¬ initFails quitEnv ∧
      runLoop H_RES V_RES blankHw quitEnv 0 (start H_RES V_RES blankHw quitEnv initTrace) =
        Run.running (start H_RES V_RES blankHw quitEnv initTrace) ∧
      (cycle H_RES V_RES blankHw quitEnv
        (start H_RES V_RES blankHw quitEnv initTrace)).isBrk = true ∧
      (main blankHw quitEnv 1).status? = some 0) :=
  ⟨⟨by decide, exit_status.1 Unit H_RES V_RES blankHw noWindowEnv 5 (by decide)⟩,
   by decide, rfl,
   by rw [cycle_quit H_RES V_RES blankHw quitEnv _ (by rfl) (by rfl) (by decide)]
      rfl,
   exit_status.2.2.2 Unit H_RES V_RES blankHw quitEnv 0 1
     (start H_RES V_RES blankHw quitEnv initTrace) (by decide) rfl
     (by rw [cycle_quit H_RES V_RES blankHw quitEnv _ (by rfl) (by rfl) (by decide)]
         rfl)
     (by decide)⟩

/-- C10. Teardown order. Every run of `main` that leaves the loop and returns
0 ends with the calls `final`, `SDL_DestroyTexture`, `SDL_DestroyRenderer`,
`SDL_DestroyWindow`, `SDL_Quit` in this order, right after the frame-rate
report; none of these calls occurs earlier, so `final` is called exactly once
and no `eval()` follows it. Such runs exist whenever the loop reaches an
iteration that breaks. -/
theorem teardown_order :
    (∀ (σ : Type) (hres vres : Nat) (hw : Hardware σ) (env : Env) (fuel : Nat)
      (tr : List Event),
      mainWith hres vres hw env fuel = MainResult.returned 0 tr →
      ∃ pre v, tr = pre ++ [Event.SDL_GetPerformanceCounter, Event.SDL_GetPerformanceFrequency,
          Event.printf_fps v, Event.final, Event.SDL_DestroyTexture,
          Event.SDL_DestroyRenderer, Event.SDL_DestroyWindow, Event.SDL_Quit] ∧
        (∀ e ∈ pre, e.isTeardown = false) ∧
        tr.count Event.final = 1) ∧
    (∀ (σ : Type) (hres vres : Nat) (hw : Hardware σ) (env : Env) (n m : Nat) (s : Sim σ),
      ¬ initFails env →
      runLoop hres vres hw env n (start hres vres hw env initTrace) = Run.running s →
      (cycle hres vres hw env s).isBrk = true → n + 1 ≤ m →
      ∃ tr, mainWith hres vres hw env m = MainResult.returned 0 tr) := by
  refine ⟨?_, ?_⟩
  · intro σ hres vres hw env fuel tr h
    by_cases hf : initFails env
    · obtain ⟨tr1, d, hm, -, -⟩ := init_failure_returns hres vres hw env fuel hf
      rw [hm] at h
      injection h with h1 _
      exact absurd h1 (by decide)
    · rw [mainWith_ok hres vres hw env fuel hf] at h
      cases hrun : runLoop hres vres hw env fuel (start hres vres hw env initTrace) with
      | running s => rw [hrun] at h; cases h
      | undef => rw [hrun] at h; cases h
      | exited s =>
        rw [hrun] at h
        injection h with _ h2
        have hno := runLoop_no_teardown hres vres hw env fuel s (by rw [hrun]; rfl)
        refine ⟨s.trace, _, by rw [← h2]; rfl, hno, ?_⟩
        have hnot : Event.final ∉ s.trace := fun hmem => by
          have := hno _ hmem
          cases this
        rw [← h2, teardown, List.count_append, List.count_eq_zero.mpr hnot]
        simp [List.count_cons]
  · intro σ hres vres hw env n m s hok hrun hbrk hm
    obtain ⟨s1, -, hmain⟩ := mainWith_returns hres vres hw env n m s hok hrun hbrk hm
    exact ⟨_, hmain⟩

/-- C10 at a concrete input: the run that is closed at the first boundary. -/
theorem teardown_order_witness :
    main blankHw quitEnv 1 = MainResult.returned 0
      (initTrace ++ [Event.SDL_GetKeyboardState, Event.new_vmodule,
        Event.eval { rst_in := 1, clk_in := 0, mvmt_in := 0 },
        Event.eval { rst_in := 1, clk_in := 1, mvmt_in := 0 },
        Event.eval { rst_in := 0, clk_in := 0, mvmt_in := 0 },
        Event.SDL_GetPerformanceCounter,
        Event.eval { rst_in := 0, clk_in := 1, mvmt_in := 0 },
        Event.eval { rst_in := 0, clk_in := 0, mvmt_in := 0 },
        Event.SDL_PollEvent,
        Event.SDL_GetPerformanceCounter, Event.SDL_GetPerformanceFrequency,
        Event.printf_fps (fps 0 2000 1000 0), Event.final, Event.SDL_DestroyTexture,
        Event.SDL_DestroyRenderer, Event.SDL_DestroyWindow, Event.SDL_Quit]) ∧
    ∃ pre v, (initTrace ++ [Event.SDL_GetKeyboardState, Event.new_vmodule,
        Event.eval { rst_in := 1, clk_in := 0, mvmt_in := 0 },
        Event.eval { rst_in := 1, clk_in := 1, mvmt_in := 0 },
        Event.eval { rst_in := 0, clk_in := 0, mvmt_in := 0 },
        Event.SDL_GetPerformanceCounter,
        Event.eval { rst_in := 0, clk_in := 1, mvmt_in := 0 },
        Event.eval { rst_in := 0, clk_in := 0, mvmt_in := 0 },
        Event.SDL_PollEvent,
        Event.SDL_GetPerformanceCounter, Event.SDL_GetPerformanceFrequency,
        Event.printf_fps (fps 0 2000 1000 0), Event.final, Event.SDL_DestroyTexture,
        Event.SDL_DestroyRenderer, Event.SDL_DestroyWindow, Event.SDL_Quit]) =
        pre ++ [Event.SDL_GetPerformanceCounter, Event.SDL_GetPerformanceFrequency,
          Event.printf_fps v, Event.final, Event.SDL_DestroyTexture,
          Event.SDL_DestroyRenderer, Event.SDL_DestroyWindow, Event.SDL_Quit] ∧
      (∀ e ∈ pre, e.isTeardown = false) ∧
      (initTrace ++ [Event.SDL_GetKeyboardState, Event.new_vmodule,
        Event.eval { rst_in := 1, clk_in := 0, mvmt_in := 0 },
        Event.eval { rst_in := 1, clk_in := 1, mvmt_in := 0 },
        Event.eval { rst_in := 0, clk_in := 0, mvmt_in := 0 },
        Event.SDL_GetPerformanceCounter,
        Event.eval { rst_in := 0, clk_in := 1, mvmt_in := 0 },
        Event.eval { rst_in := 0, clk_in := 0, mvmt_in := 0 },
        Event.SDL_PollEvent,
        Event.SDL_GetPerformanceCounter, Event.SDL_GetPerformanceFrequency,
        Event.printf_fps (fps 0 2000 1000 0), Event.final, Event.SDL_DestroyTexture,
        Event.SDL_DestroyRenderer, Event.SDL_DestroyWindow, Event.SDL_Quit]).count
          Event.final = 1 :=
  ⟨rfl, teardown_order.1 Unit H_RES V_RES blankHw quitEnv 1 _ rfl⟩

end Simulate
